import Mathlib

/-!
Verification of the Nuclino-workspace-to-Confluence importer (`import.py`).

The development shallowly embeds the script's core logic over `List Char`
strings: the hierarchy planner (`is_index_file`, `get_subfolder_name`,
`process_index`), the content transformer (`convert_info_macros`,
`convert_comment_block`, `convert_code_block`, `process_refs`, `get_body`) and
the remote hierarchy builder (`is_child`, `get_page_id`, `create_page`,
`execute_import`).  The Python regular-expression operations are embedded as
explicit scanners with the exact matching policy of the originals (leftmost
match, lazy or greedy quantifiers as written, `re.sub` count/flag arguments as
actually passed).  External collaborators (the markdown renderer and the
Confluence HTTP API) are modelled as parameters respectively as a small state
machine, following the narrow contract the script relies on.
-/

set_option autoImplicit false
set_option maxRecDepth 8192
set_option maxHeartbeats 1000000

namespace NuclinoImport

/-- Character-list view of a string literal. -/
def S (s : String) : List Char := s.data

/-- Boolean test that `p` is a literal prefix of `cs`. -/
def litHead : List Char → List Char → Bool
  | [], _ => true
  | _ :: _, [] => false
  | p :: ps, c :: cs => if p = c then litHead ps cs else false

/-- Python `str.replace` worker: scans left to right; `skip > 0` means we are
inside an already-matched occurrence whose remaining `skip` characters must be
consumed without being re-examined.  The replacement is emitted at the match
position and matching resumes after the matched text (non-overlapping). -/
def repAux (pat rep : List Char) : Nat → List Char → List Char
  | _, [] => []
  | Nat.succ k, _ :: cs => repAux pat rep k cs
  | 0, c :: cs =>
    if litHead pat (c :: cs) then rep ++ repAux pat rep (pat.length - 1) cs
    else c :: repAux pat rep 0 cs

/-- Python `str.replace(pat, rep)` (all occurrences, leftmost,
non-overlapping).  The scripts never call `replace` with an empty pattern, so
the empty-pattern case is left as the identity. -/
def pyReplace (s pat rep : List Char) : List Char :=
  if pat = [] then s else repAux pat rep 0 s

/-- Leftmost occurrence of the literal `pat`: returns the text before the
match and the text after it. -/
def searchLit (pat : List Char) : List Char → Option (List Char × List Char)
  | [] => none
  | c :: cs =>
    if litHead pat (c :: cs) then some ([], List.drop (pat.length - 1) cs)
    else (searchLit pat cs).map (fun p => (c :: p.1, p.2))

/-- Python text-file line iteration: yields each line including its trailing
newline; a final line without a newline is yielded as-is; the empty file
yields nothing. -/
def pyLinesAux (cur : List Char) : List Char → List (List Char)
  | [] => if cur = [] then [] else [cur.reverse]
  | c :: cs =>
    if c = '\n' then (cur.reverse ++ ['\n']) :: pyLinesAux [] cs
    else pyLinesAux (c :: cur) cs

/-- Lines of a file body, Python iteration semantics. -/
def pyLines (s : List Char) : List (List Char) := pyLinesAux [] s

/-- Every suffix of `lit` fails to start a match of `pat`, even when
arbitrary text follows `lit`: suffixes at least as long as `pat` must
mismatch it outright, shorter suffixes must not be prefixes of `pat`. -/
def chunkSafe (pat : List Char) : List Char → Bool
  | [] => true
  | l :: ls =>
    (if pat.length ≤ (l :: ls).length then !litHead pat (l :: ls)
     else !litHead (l :: ls) pat) && chunkSafe pat ls

/-- Python slice `s[:-n]`: drop the last `n` characters, empty if `n` exceeds
the length. -/
def pyDropLast (s : List Char) (n : Nat) : List Char := s.take (s.length - n)

/-- Boolean suffix test. -/
def litTail (pat s : List Char) : Bool := litHead pat.reverse s.reverse

/-! ## Hierarchy planner: index-file classification and name sanitisation -/

/-- Helper for the Index Entry pattern: is there a `)` later on this line
(`.` in the pattern cannot cross a newline)? -/
def parenClose : List Char → Bool
  | [] => false
  | c :: cs => if c = ')' then true else if c = '\n' then false else parenClose cs

/-- Helper for the Index Entry pattern: is there a `](` later on this line,
followed somewhere by a `)`? -/
def linkClose : List Char → Bool
  | [] => false
  | c :: cs =>
    if c = '\n' then false
    else if c = ']' then
      (match cs with
       | '(' :: cs2 => parenClose cs2 || linkClose cs
       | _ => linkClose cs)
    else linkClose cs

/-- `re.compile(r'^\* \[.*]\((.*)\)').match(line)` succeeds: the line starts
with `* [` and contains `](` followed later by `)` before any newline. -/
def matchesIndexEntry (line : List Char) : Bool :=
  litHead (S "* [") line && linkClose (line.drop 3)

/-- Loop body of `is_index_file`: an early `return False` on the first
non-matching line, `True` when the lines are exhausted. -/
def isIndexLoop : List (List Char) → Bool
  | [] => true
  | l :: ls => if matchesIndexEntry l then isIndexLoop ls else false

/-- `is_index_file` applied to the contents of the file (the callers have
already established that the file exists and is readable). -/
def is_index_file (content : List Char) : Bool := isIndexLoop (pyLines content)

/-- `get_subfolder_name`: if the name ends in `.md`, Python slices
`file_name[:-12]` (twelve characters, not three); then spaces become
underscores. -/
def get_subfolder_name (file_name : List Char) : List Char :=
  let base := if litTail (S ".md") file_name then pyDropLast file_name 12 else file_name
  pyReplace base (S " ") (S "_")

/-! ## Remote hierarchy builder: the Confluence page model

The Confluence REST API is the external collaborator of §6 of the spec.  A
remote page is its id, its title and its ancestor chain (root first, so the
immediate parent is the last element), plus the uploaded body. -/

structure Page where
  id : List Char
  title : List Char
  ancestors : List (List Char)
  body : List Char
  deriving DecidableEq

/-- `GET /rest/api/content/{id}` lookup. -/
def findPage (st : List Page) (pid : List Char) : Option Page :=
  st.find? (fun p => decide (p.id = pid))

/-- `is_child`: fetches the child's ancestor list and, exactly as the source
line reads, compares the last ancestor's id with `child` itself — the
`ancestor` argument is never consulted.  An HTTP failure makes the function
return `""`, which the caller's `if` treats as false; `data['ancestors'][-1]`
on an empty ancestor list raises IndexError, modelled as `none`. -/
def is_child (st : List Page) (child ancestor : List Char) : Option Bool :=
  match findPage st child with
  | none => some false
  | some p =>
    match p.ancestors.getLast? with
    | none => none
    | some a => some (decide (a = child))

/-- Loop of `get_page_id` over the title-filtered results: first page whose
`is_child` check is truthy, else `""` (embedded as `[]`). -/
def get_page_id_loop (st : List Page) (ancestor : List Char) :
    List Page → Option (List Char)
  | [] => some []
  | r :: rs =>
    match is_child st r.id ancestor with
    | none => none
    | some true => some r.id
    | some false => get_page_id_loop st ancestor rs

/-- `get_page_id`: queries remote pages by exact title within the space, then
filters through `is_child`. -/
def get_page_id (st : List Page) (title ancestor : List Char) :
    Option (List Char) :=
  get_page_id_loop st ancestor (st.filter (fun p => decide (p.title = title)))

/-- Remote state threaded through the builder: the pages of the space plus a
fresh-id counter for the external id generator. -/
structure RemoteSt where
  pages : List Page
  nextId : Nat
  deriving DecidableEq

/-- Confluence-side ancestor chain of a freshly created page (external
collaborator behaviour): the parent's chain extended by the parent. -/
def newAncestors (st : List Page) (parent : List Char) : List (List Char) :=
  match findPage st parent with
  | some p => p.ancestors ++ [parent]
  | none => [parent]

/-- `create_page`: reuses `get_page_id`'s result when truthy, otherwise posts
a new page under `ancestor` and returns its fresh id.  `none` propagates an
IndexError escaping `is_child`. -/
def create_page (st : RemoteSt) (title body ancestor : List Char) :
    Option (List Char × RemoteSt) :=
  match get_page_id st.pages title ancestor with
  | none => none
  | some existing =>
    if existing ≠ [] then some (existing, st)
    else
      let pid := S (toString st.nextId)
      some (pid, ⟨st.pages ++ [⟨pid, title, newAncestors st.pages ancestor, body⟩],
                  st.nextId + 1⟩)

/-! ## Hierarchy planner: `process_index` -/

/-- A workspace: the exported folder as a map from relative path to file
contents. -/
abbrev Workspace := List (List Char × List Char)

/-- Filesystem read of `os.path.join(WORK_FOLDER, p)`. -/
def wsFind (w : Workspace) (p : List Char) : Option (List Char) :=
  (w.find? (fun e => decide (e.1 = p))).map (fun e => e.2)

/-- The current line, i.e. everything before the first newline (`.` in the
patterns does not cross newlines). -/
def lineOf (s : List Char) : List Char := s.takeWhile (fun c => decide (c ≠ '\n'))

/-- Index of the last occurrence of `c`, accumulating the best candidate. -/
def lastIdxAux (c : Char) : Nat → Option Nat → List Char → Option Nat
  | _, best, [] => best
  | i, best, x :: xs => lastIdxAux c (i + 1) (if x = c then some i else best) xs

/-- Index of the last occurrence of `c` in `r`. -/
def lastIdx (c : Char) (r : List Char) : Option Nat := lastIdxAux c 0 none r

/-- Position `i` can serve as the end of the greedy `\[.*]` of the Index
Entry pattern: `](` sits at `i` and a `)` follows later. -/
def viableLink (r : List Char) (i : Nat) : Bool :=
  decide (r.get? i = some ']') && decide (r.get? (i + 1) = some '(') &&
    (r.drop (i + 2)).contains ')'

/-- The greedy `\[.*]` takes the longest extent: the last viable `](`. -/
def lastViable (r : List Char) : Option Nat :=
  (List.range r.length).reverse.find? (fun i => viableLink r i)

/-- `re.search(r'^\* \[.*]\((.*)\)', line).group(1)`: the line must start
with `* [`; the greedy first quantifier picks the last viable `](` of the
line, and the greedy capture extends to the last `)` of the line.  `none`
models the `AttributeError` raised by `.group` on a failed search. -/
def groupOfEntry (line : List Char) : Option (List Char) :=
  if litHead (S "* [") line then
    let r := lineOf (line.drop 3)
    match lastViable r with
    | none => none
    | some i =>
      match lastIdx ')' r with
      | none => none
      | some j => some ((r.take j).drop (i + 2))
  else none

/-- Entry-path resolution (source lines 191–198): the literal path, else the
path with backslashes removed, else a fatal error.  Returns the path that was
actually used together with the file contents. -/
def resolveEntry (w : Workspace) (target : List Char) :
    Option (List Char × List Char) :=
  match wsFind w target with
  | some c => some (target, c)
  | none =>
    let esc := target.filter (fun c => decide (c ≠ '\\'))
    match wsFind w esc with
    | some c => some (esc, c)
    | none => none

/-- `os.path.basename`: the component after the last `/`. -/
def basename (p : List Char) : List Char :=
  (p.reverse.takeWhile (fun c => decide (c ≠ '/'))).reverse

/-- `os.path.join` for the relative paths the planner builds: an empty left
operand yields the right one. -/
def pyJoin (a b : List Char) : List Char := if a = [] then b else a ++ '/' :: b

/-- The plan folder as produced so far: created sub-directories and copied
files as (folder path, file name, contents). -/
structure PlanSt where
  dirs : List (List Char)
  files : List (List Char × List Char × List Char)
  deriving DecidableEq

/-- Outcome of a planner run: a populated plan folder, or an aborted run
(`sys.exit(1)` or an uncaught exception). -/
inductive PlanRes where
  | ok (st : PlanSt)
  | fail
  deriving DecidableEq

/-- Continuation on the result of a nested `process_index` call: exhausted
fuel and fatal aborts propagate, success feeds the new plan state to the rest
of the loop. -/
def contOf : Option PlanRes → (PlanSt → Option PlanRes) → Option PlanRes
  | none, _ => none
  | some .fail, _ => some .fail
  | some (.ok st), k => k st

/-- The per-line loop of `process_index` (source lines 190–207): extract the
entry target, resolve it, recurse on nested indexes — passing only the
*basename* of the resolved file, with a destination of
`os.path.join(file_path, get_subfolder_name(basename))` — and copy leaf
files into the current destination folder. -/
def entriesLoop (w : Workspace)
    (recurse : List Char → List Char → PlanSt → Option PlanRes) :
    List (List Char) → List Char → PlanSt → Option PlanRes
  | [], _, st => some (.ok st)
  | line :: rest, path, st =>
    match groupOfEntry line with
    | none => some .fail
    | some target =>
      match resolveEntry w target with
      | none => some .fail
      | some rc =>
        if is_index_file rc.2 then
          contOf (recurse (pyJoin path (get_subfolder_name (basename rc.1)))
                    (basename rc.1) st)
            (fun st2 => entriesLoop w recurse rest path st2)
        else
          entriesLoop w recurse rest path
            ⟨st.dirs, (path, basename rc.1, rc.2) :: st.files⟩

/-- `process_index`, fuel-indexed: each nested call consumes one unit of
fuel, so `none` means the allotted recursion depth was exhausted (the Python
original recurses without any bound or cycle guard).  A non-empty destination
creates that sub-folder first (`os.makedirs` raises if it already exists);
then the index file named `name` is opened relative to the workspace root. -/
def process_index (w : Workspace) :
    Nat → List Char → List Char → PlanSt → Option PlanRes
  | 0, _, _, _ => none
  | fuel + 1, path, name, st =>
    let made : Option PlanSt :=
      if path = [] then some st
      else if st.dirs.contains path then none
      else some ⟨path :: st.dirs, st.files⟩
    match made with
    | none => some .fail
    | some st2 =>
      match wsFind w name with
      | none => some .fail
      | some content =>
        entriesLoop w (process_index w fuel) (pyLines content) path st2

/-- `plan_import`: `check_plan_requirements` then the root call
`process_index("", "index.md")` on a fresh plan folder (a missing root index
aborts, which the root call's failed open also produces). -/
def plan_import (w : Workspace) (fuel : Nat) : Option PlanRes :=
  process_index w fuel [] (S "index.md") ⟨[], []⟩

/-- Termination of the planning phase on workspace `w`: some recursion depth
suffices for the run to finish (successfully or with an abort). -/
def planTerminates (w : Workspace) : Prop :=
  ∃ fuel r, plan_import w fuel = some r

/-- The workspace of the C3 end-to-end scenario: the root index lists the
leaf `a.md` and the nested index `sub/index.md`, which lists the leaf
`sub/c.md`. -/
def w3 : Workspace :=
  [(S "index.md", S "* [A](a.md)\n* [B](sub/index.md)"),
   (S "a.md", S "Hello"),
   (S "sub/index.md", S "* [C](sub/c.md)"),
   (S "sub/c.md", S "World")]

/-- The resolved index-reference relation of a workspace: an index file's
entries point to the files they resolve to. -/
def resolvedTargets (w : Workspace) (name : List Char) : List (List Char) :=
  match wsFind w name with
  | none => []
  | some content =>
    if is_index_file content then
      (pyLines content).filterMap (fun line =>
        (groupOfEntry line).bind (fun t => (resolveEntry w t).map (fun rc => rc.1)))
    else []

/-- One step of the resolved index-reference relation. -/
def refStep (w : Workspace) (a b : List Char) : Prop := b ∈ resolvedTargets w a

/-- A rank function witnessing that `w3`'s reference relation is acyclic. -/
def rank3 (name : List Char) : Nat :=
  if name = S "index.md" then 2 else if name = S "sub/index.md" then 1 else 0

/-- The remote state for the C2 scenario: one page `"2"` titled `"T"` whose
immediate parent is `"1"`. -/
def pagesT : List Page := [⟨S "2", S "T", [S "1"], []⟩]

/-! ## Content transformer: regular-expression machinery

The rewrite passes of `get_body` are chains of `re` operations.  They are
embedded as continuation-passing matchers: a matcher receives the
continuation for the rest of the pattern and returns the number of characters
the match consumes at the current position, reproducing the engine's
leftmost/lazy/greedy policies. -/

/-- Python's `\s` character class (`str.strip` uses the same set). -/
def pyIsSpace (c : Char) : Bool :=
  c = ' ' || c = '\t' || c = '\n' || c = '\r' || c = '\x0b' || c = '\x0c'

/-- Python `str.strip()`. -/
def pyStrip (s : List Char) : List Char :=
  ((s.dropWhile pyIsSpace).reverse.dropWhile pyIsSpace).reverse

/-- `.` outside DOTALL mode. -/
def nonNL (c : Char) : Bool := decide (c ≠ '\n')

/-- The trivial continuation: the pattern has been fully matched. -/
def endM : List Char → Option Nat := fun _ => some 0

/-- Literal fragment of a pattern. -/
def litM (lit : List Char) (next : List Char → Option Nat) :
    List Char → Option Nat := fun cs =>
  if litHead lit cs then (next (cs.drop lit.length)).map (· + lit.length) else none

/-- Single character-class fragment (`\s`, …). -/
def clsM (p : Char → Bool) (next : List Char → Option Nat) :
    List Char → Option Nat
  | [] => none
  | c :: cs => if p c then (next cs).map (· + 1) else none

/-- Lazy quantifier `X*?` over character class `X`: the shortest run that
lets the continuation succeed, extending on failure. -/
def lazyClsM (p : Char → Bool) (next : List Char → Option Nat) :
    List Char → Option Nat
  | [] => next []
  | c :: cs =>
    match next (c :: cs) with
    | some n => some n
    | none => if p c then (lazyClsM p next cs).map (· + 1) else none

/-- Greedy `.*lit` in DOTALL mode: prefers the rightmost viable occurrence of
`lit`. -/
def greedyLitM (lit : List Char) (next : List Char → Option Nat) :
    List Char → Option Nat
  | [] => if litHead lit [] then (next []).map (· + lit.length) else none
  | c :: cs =>
    match (greedyLitM lit next cs).map (· + 1) with
    | some n => some n
    | none =>
      if litHead lit (c :: cs) then
        (next ((c :: cs).drop lit.length)).map (· + lit.length)
      else none

/-- Alternation `(A|B)`, trying `A` first and backtracking into `B`. -/
def altM (m1 m2 : (List Char → Option Nat) → List Char → Option Nat)
    (next : List Char → Option Nat) : List Char → Option Nat := fun cs =>
  (m1 next cs).orElse (fun _ => m2 next cs)

/-- Leftmost match of a matcher: start position and length. -/
def searchM (m : List Char → Option Nat) : List Char → Option (Nat × Nat)
  | [] => (m []).map (fun n => (0, n))
  | c :: cs =>
    match m (c :: cs) with
    | some n => some (0, n)
    | none => (searchM m cs).map (fun p => (p.1 + 1, p.2))

/-- `re.sub(pattern, '', s, count)` worker: `cnt` replacements remain, `k`
characters of a match are still to be consumed.  The patterns used by the
script cannot match the empty string; a hypothetical zero-width match is
skipped over. -/
def subAux (m : List Char → Option Nat) : Nat → Nat → List Char → List Char
  | cnt, Nat.succ k, _ :: cs => subAux m cnt k cs
  | _, _, [] => []
  | 0, 0, c :: cs => c :: subAux m 0 0 cs
  | Nat.succ cnt, 0, c :: cs =>
    match m (c :: cs) with
    | some (Nat.succ n) => subAux m cnt n cs
    | some 0 => c :: subAux m (Nat.succ cnt) 0 cs
    | none => c :: subAux m (Nat.succ cnt) 0 cs

/-- `re.sub(pattern, '', s, count)`. -/
def pySub (m : List Char → Option Nat) (cnt : Nat) (s : List Char) : List Char :=
  subAux m cnt 0 s

/-- `re.sub(pattern, rep, s)` (unbounded) worker. -/
def subAllAux (m : List Char → Option Nat) (rep : List Char) :
    Nat → List Char → List Char
  | Nat.succ k, _ :: cs => subAllAux m rep k cs
  | _, [] => []
  | 0, c :: cs =>
    match m (c :: cs) with
    | some (Nat.succ n) => rep ++ subAllAux m rep n cs
    | some 0 => c :: subAllAux m rep 0 cs
    | none => c :: subAllAux m rep 0 cs

/-- `re.sub(pattern, rep, s)`: every non-overlapping leftmost match. -/
def pySubAll (m : List Char → Option Nat) (rep s : List Char) : List Char :=
  subAllAux m rep 0 s

/-- `re.findall` for a lazy delimited region `open(.*?)close` in DOTALL mode:
the first opener with a closer after it yields the shortest region, scanning
resumes after the closer.  Fueled by the input length (each round consumes at
least one character). -/
def findAllSplit (openL closeL : List Char) : Nat → List Char → List (List Char)
  | 0, _ => []
  | f + 1, cs =>
    match searchLit openL cs with
    | none => []
    | some pr =>
      match searchLit closeL pr.2 with
      | none => []
      | some qr => qr.1 :: findAllSplit openL closeL f qr.2

/-! ## Content transformer: the rewrite passes -/

/-- `upper_chars`: uppercase the characters at the given indices. -/
def upper_chars (s : List Char) (idxs : List Nat) : List Char :=
  s.mapIdx (fun i c => if i ∈ idxs then c.toUpper else c)

/-- Case-insensitive literal prefix (for patterns compiled with
`re.IGNORECASE`). -/
def ciHead : List Char → List Char → Bool
  | [], _ => true
  | _ :: _, [] => false
  | p :: ps, c :: cs => if p.toLower = c.toLower then ciHead ps cs else false

/-- Scanning part of `^<.*>lit` after the initial `<`: a `>` followed by the
case-insensitive literal, with the greedy `.*` confined to the line. -/
def tagThenCi (lit : List Char) : List Char → Bool
  | [] => false
  | c :: cs =>
    (if c = '>' then ciHead lit cs else false) ||
      (if c = '\n' then false else tagThenCi lit cs)

/-- `re.search('^<.*>Note', quote.strip(), re.IGNORECASE)` truthiness (and
the Warning analogue). -/
def bqDetect (ty quote : List Char) : Bool :=
  match pyStrip quote with
  | '<' :: rest => tagThenCi ty rest
  | _ => false

/-- `'%s:\s' % tagtype`. -/
def stPat1 (ty : List Char) : List Char → Option Nat :=
  litM (ty ++ S ":") (clsM pyIsSpace endM)

/-- `'%s\s:\s' % tagtype`. -/
def stPat2 (ty : List Char) : List Char → Option Nat :=
  litM ty (clsM pyIsSpace (litM (S ":") (clsM pyIsSpace endM)))

/-- `'<.*?>%s:\s<.*?>' % tagtype`. -/
def stPat3 (ty : List Char) : List Char → Option Nat :=
  litM (S "<") (lazyClsM nonNL (litM (S ">")
    (litM (ty ++ S ":") (clsM pyIsSpace
      (litM (S "<") (lazyClsM nonNL (litM (S ">") endM)))))))

/-- `'<.*?>%s\s:\s<.*?>' % tagtype`. -/
def stPat4 (ty : List Char) : List Char → Option Nat :=
  litM (S "<") (lazyClsM nonNL (litM (S ">")
    (litM ty (clsM pyIsSpace (litM (S ":") (clsM pyIsSpace
      (litM (S "<") (lazyClsM nonNL (litM (S ">") endM)))))))))

/-- `<em>` or `<strong>` opener of the remaining four patterns. -/
def emStrongM (next : List Char → Option Nat) : List Char → Option Nat :=
  altM (fun n => litM (S "<em>") n) (fun n => litM (S "<strong>") n) next

/-- `'<(em|strong)>%s:<.*?>\s' % tagtype`. -/
def stPat5 (ty : List Char) : List Char → Option Nat :=
  emStrongM (litM (ty ++ S ":")
    (litM (S "<") (lazyClsM nonNL (litM (S ">") (clsM pyIsSpace endM)))))

/-- `'<(em|strong)>%s\s:<.*?>\s' % tagtype`. -/
def stPat6 (ty : List Char) : List Char → Option Nat :=
  emStrongM (litM ty (clsM pyIsSpace (litM (S ":")
    (litM (S "<") (lazyClsM nonNL (litM (S ">") (clsM pyIsSpace endM)))))))

/-- `'<(em|strong)>%s<.*?>:\s' % tagtype`. -/
def stPat7 (ty : List Char) : List Char → Option Nat :=
  emStrongM (litM ty
    (litM (S "<") (lazyClsM nonNL (litM (S ">")
      (litM (S ":") (clsM pyIsSpace endM))))))

/-- `'<(em|strong)>%s\s<.*?>:\s' % tagtype`. -/
def stPat8 (ty : List Char) : List Char → Option Nat :=
  emStrongM (litM ty (clsM pyIsSpace
    (litM (S "<") (lazyClsM nonNL (litM (S ">")
      (litM (S ":") (clsM pyIsSpace endM)))))))

/-- `strip_type`: the eight `re.sub` calls of the source.  Each passes
`re.IGNORECASE` (= 2) as the *count* argument of `re.sub`, so each rewrites
at most two occurrences and matches case-sensitively.  The first two operate
on the stripped tag.  The final step uppercases the character following the
first `<.*?>` tag; a missing tag raises (`None.end()`), modelled as
`none`. -/
def strip_type (ty tag : List Char) : Option (List Char) :=
  let t1 := pySub (stPat1 ty) 2 (pyStrip tag)
  let t2 := pySub (stPat2 ty) 2 (pyStrip t1)
  let t3 := pySub (stPat3 ty) 2 t2
  let t4 := pySub (stPat4 ty) 2 t3
  let t5 := pySub (stPat5 ty) 2 t4
  let t6 := pySub (stPat6 ty) 2 t5
  let t7 := pySub (stPat7 ty) 2 t6
  let t8 := pySub (stPat8 ty) 2 t7
  match searchM (litM (S "<") (lazyClsM nonNL (litM (S ">") endM))) t8 with
  | none => none
  | some pr => some (upper_chars t8 [pr.1 + pr.2])

/-- The literal macro opener for "info" callouts. -/
def info_tag : List Char :=
  S "<p><ac:structured-macro ac:name=\"info\"><ac:rich-text-body><p>"

/-- `info_tag.replace('info', 'note')`. -/
def note_tag : List Char := pyReplace info_tag (S "info") (S "note")

/-- `info_tag.replace('info', 'warning')`. -/
def warning_tag : List Char := pyReplace info_tag (S "info") (S "warning")

/-- The closing literal shared by all callout macros. -/
def close_tag : List Char := S "</p></ac:rich-text-body></ac:structured-macro></p>"

/-- One iteration of the blockquote loop: Note/Warning detection, stripping,
and the `<p>`/`</p>` to macro-tag substitution. -/
def quoteCallout (quote : List Char) : Option (List Char) :=
  if bqDetect (S "Note") quote then
    (strip_type (S "Note") quote).map (fun ct =>
      pyStrip (pyReplace (pyReplace ct (S "<p>") note_tag) (S "</p>") close_tag))
  else if bqDetect (S "Warning") quote then
    (strip_type (S "Warning") quote).map (fun ct =>
      pyStrip (pyReplace (pyReplace ct (S "<p>") warning_tag) (S "</p>") close_tag))
  else
    some (pyStrip (pyReplace (pyReplace quote (S "<p>") info_tag) (S "</p>") close_tag))

/-- The blockquote loop of `convert_info_macros`. -/
def bqLoop : List (List Char) → List Char → Option (List Char)
  | [], html => some html
  | q :: qs, html =>
    match quoteCallout q with
    | none => none
    | some mt =>
      bqLoop qs (pyReplace html (S "<blockquote>" ++ q ++ S "</blockquote>") mt)

/-- The doctoc comment pattern (DOTALL, greedy). -/
def doctocPat : List Char → Option Nat :=
  litM (S "<!-- START doctoc") (greedyLitM (S "END doctoc -->") endM)

/-- The literal table-of-contents macro of `convert_doctoc`. -/
def toc_tag : List Char :=
  S "<p>\n    <ac:structured-macro ac:name=\"toc\">\n      <ac:parameter ac:name=\"printable\">true</ac:parameter>\n      <ac:parameter ac:name=\"style\">disc</ac:parameter>\n      <ac:parameter ac:name=\"maxLevel\">7</ac:parameter>\n      <ac:parameter ac:name=\"minLevel\">1</ac:parameter>\n      <ac:parameter ac:name=\"type\">list</ac:parameter>\n      <ac:parameter ac:name=\"outline\">clear</ac:parameter>\n      <ac:parameter ac:name=\"include\">.*</ac:parameter>\n    </ac:structured-macro>\n    </p>"

/-- `convert_doctoc`. -/
def convert_doctoc (html : List Char) : List Char :=
  pySubAll doctocPat toc_tag html

/-- `convert_info_macros`: the three sigil substitution pairs, the blockquote
loop, then `convert_doctoc`. -/
def convert_info_macros (html : List Char) : Option (List Char) :=
  let h1 := pyReplace (pyReplace html (S "<p>~?") info_tag) (S "?~</p>") close_tag
  let h2 := pyReplace (pyReplace h1 (S "<p>~!") note_tag) (S "!~</p>") close_tag
  let h3 := pyReplace (pyReplace h2 (S "<p>~%") warning_tag) (S "%~</p>") close_tag
  let quotes := findAllSplit (S "<blockquote>") (S "</blockquote>") (h3.length + 1) h3
  (bqLoop quotes h3).map convert_doctoc

/-- `convert_comment_block`. -/
def convert_comment_block (html : List Char) : List Char :=
  pyReplace (pyReplace html (S "<!--") (S "<ac:placeholder>"))
    (S "-->") (S "</ac:placeholder>")

/-- `re.findall(r'<pre><code.*?>.*?</code></pre>', html, re.DOTALL)`:
first `"<pre><code"`, lazily to the first `>`, lazily to the first
`"</code></pre>"`. -/
def findCodeBlocks : Nat → List Char → List (List Char)
  | 0, _ => []
  | f + 1, cs =>
    match searchLit (S "<pre><code") cs with
    | none => []
    | some pr =>
      match searchLit (S ">") pr.2 with
      | none => []
      | some qr =>
        match searchLit (S "</code></pre>") qr.2 with
        | none => []
        | some rr =>
          (S "<pre><code" ++ qr.1 ++ S ">" ++ rr.1 ++ S "</code></pre>")
            :: findCodeBlocks f rr.2

/-- `re.search('code class="(.*)"', tag)`: greedy—the capture runs to the
*last* `"` on the line of the occurrence; if an occurrence has no closing
quote on its line the engine retries from the next position. -/
def extractLangF : Nat → List Char → Option (List Char)
  | 0, _ => none
  | f + 1, cs =>
    match searchLit (S "code class=\"") cs with
    | none => none
    | some pr =>
      let line := lineOf pr.2
      match lastIdx '"' line with
      | some j => some (line.take j)
      | none => extractLangF f (cs.drop (pr.1.length + 1))

/-- Language capture over a whole code-block region. -/
def extractLang (tag : List Char) : Option (List Char) :=
  extractLangF (tag.length + 1) tag

/-- `re.search(r'<pre><code.*?>(.*?)</code></pre>', tag, re.DOTALL).group(1)`
re-applied to a found region. -/
def codeContent (tag : List Char) : Option (List Char) :=
  match searchLit (S "<pre><code") tag with
  | none => none
  | some pr =>
    match searchLit (S ">") pr.2 with
    | none => none
    | some qr => (searchLit (S "</code></pre>") qr.2).map (fun rr => rr.1)

/-- The four entity replacements of `convert_code_block`, in source order
(`&amp;` last, so decoding happens exactly once). -/
def decodeEntities (s : List Char) : List Char :=
  pyReplace (pyReplace (pyReplace (pyReplace s
    (S "&lt;") (S "<")) (S "&gt;") (S ">")) (S "&quot;") (S "\"")) (S "&amp;") (S "&")

/-- The code-macro text up to the language value (source lines 459–469). -/
def macroHead : List Char :=
  S "<ac:structured-macro ac:name=\"code\"><ac:parameter ac:name=\"theme\">Midnight</ac:parameter><ac:parameter ac:name=\"linenumbers\">true</ac:parameter><ac:parameter ac:name=\"language\">"

/-- The code-macro text between the language value and the body. -/
def macroMid : List Char := S "</ac:parameter><ac:plain-text-body><![CDATA["

/-- The code-macro text after the body. -/
def macroTail : List Char := S "]]></ac:plain-text-body></ac:structured-macro>"

/-- The Confluence code macro built for one `<pre><code>` region: fixed
theme, line numbers, the language parameter (default `none`), the CDATA body,
then the entity decode applied to the whole macro text. -/
def codeBlockOf (tag : List Char) : Option (List Char) :=
  let lang := match extractLang tag with
              | some l => l
              | none => S "none"
  (codeContent tag).map (fun content =>
    decodeEntities (macroHead ++ lang ++ macroMid ++ content ++ macroTail))

/-- The per-region loop of `convert_code_block`. -/
def cbLoop : List (List Char) → List Char → Option (List Char)
  | [], html => some html
  | t :: ts, html =>
    match codeBlockOf t with
    | none => none
    | some cm => cbLoop ts (pyReplace html t cm)

/-- `convert_code_block`. -/
def convert_code_block (html : List Char) : Option (List Char) :=
  cbLoop (findCodeBlocks (html.length + 1) html) html

/-- A footnote definition found by
`re.findall(r'\n(\[\^(\d)\].*)|<p>(\[\^(\d)\].*)', html)`: which alternative
matched, the captured group (marker to end of line) and the digit id. -/
structure Ref where
  viaNL : Bool
  full : List Char
  d : Char
  deriving DecidableEq

/-- The first findall alternative, after its leading `\n`: `(\[\^(\d)\].*)`.
Returns the reference and the characters consumed including the newline. -/
def refBody : List Char → Option (Ref × Nat)
  | '[' :: '^' :: d :: ']' :: rest =>
    if d.isDigit then
      let full := S "[^" ++ [d] ++ S "]" ++ lineOf rest
      some (⟨true, full, d⟩, 1 + full.length)
    else none
  | _ => none

/-- The second findall alternative, after its leading `<`:
`p>(\[\^(\d)\].*)`. -/
def refPara : List Char → Option (Ref × Nat)
  | 'p' :: '>' :: '[' :: '^' :: d :: ']' :: rest =>
    if d.isDigit then
      let full := S "[^" ++ [d] ++ S "]" ++ lineOf rest
      some (⟨false, full, d⟩, 3 + full.length)
    else none
  | _ => none

/-- Match of one findall alternative at the current position; returns the
reference and the number of characters consumed.  (`\d` is embedded as the
decimal digits the script's inputs use.) -/
def refAt : List Char → Option (Ref × Nat)
  | [] => none
  | c :: cs => if c = '\n' then refBody cs else if c = '<' then refPara cs else none

/-- The findall scan, fuelled by the input length. -/
def findRefsF : Nat → List Char → List Ref
  | 0, _ => []
  | f + 1, cs =>
    match refAt cs with
    | some rn => rn.1 :: findRefsF f (cs.drop rn.2)
    | none =>
      match cs with
      | [] => []
      | _ :: cs2 => findRefsF f cs2

/-- All footnote definitions of the document, in order. -/
def findRefs (s : List Char) : List Ref := findRefsF (s.length + 1) s

/-- `.replace('</p>', '').replace('<p>', '')`. -/
def cleanRef (s : List Char) : List Char :=
  pyReplace (pyReplace s (S "</p>") []) (S "<p>") []

/-- `full_ref` as the loop computes it: the newline alternative is cleaned
twice (once in the branch, once after), the paragraph alternative once. -/
def fullRefOf (r : Ref) : List Char :=
  if r.viaNL then cleanRef (cleanRef r.full) else cleanRef r.full

/-- `re.search('href="(.*?)"', full_ref).group(1)`: lazy capture to the first
closing quote on the occurrence's line, retrying later occurrences. -/
def hrefOfF : Nat → List Char → Option (List Char)
  | 0, _ => none
  | f + 1, cs =>
    match searchLit (S "href=\"") cs with
    | none => none
    | some pr =>
      match searchLit (S "\"") (lineOf pr.2) with
      | some qr => some qr.1
      | none => hrefOfF f (cs.drop (pr.1.length + 1))

/-- Href extraction from a footnote definition; `none` is the AttributeError
on a definition without href. -/
def hrefOf (s : List Char) : Option (List Char) := hrefOfF (s.length + 1) s

/-- The per-reference loop of `process_refs`: remove the definition text,
extract its href (fatal when absent), replace every `[^n]` marker with the
superscript anchor. -/
def refsLoop : List Ref → List Char → Option (List Char)
  | [], html => some html
  | r :: rs, html =>
    let fr := fullRefOf r
    let html2 := pyReplace html fr []
    match hrefOf fr with
    | none => none
    | some u =>
      refsLoop rs (pyReplace html2 (S "[^" ++ [r.d] ++ S "]")
        (S "<a id=\"test\" href=\"" ++ u ++ S "\"><sup>" ++ [r.d] ++ S "</sup></a>"))

/-- `process_refs`. -/
def process_refs (html : List Char) : Option (List Char) :=
  refsLoop (findRefs html) html

/-- A footnote marker `[^d]`. -/
def marker (d : Char) : List Char := S "[^" ++ ([d] ++ S "]")

/-- A footnote definition line `[^d]: <a href="u">t</a>`. -/
def fnDef (d : Char) (u t : List Char) : List Char :=
  marker d ++ (S ": <a href=\"" ++ (u ++ (S "\">" ++ (t ++ S "</a>"))))

/-- The superscript anchor `process_refs` substitutes for a marker. -/
def fnSup (d : Char) (u : List Char) : List Char :=
  S "<a id=\"test\" href=\"" ++ (u ++ (S "\"><sup>" ++ ([d] ++ S "</sup></a>")))

/-- `get_body`: the markdown renderer (external library, passed as the
`render` parameter) followed by the four rewrite passes in source order. -/
def get_body (render : List Char → List Char) (md : List Char) :
    Option (List Char) :=
  (convert_info_macros (render md)).map convert_comment_block >>= fun h =>
    convert_code_block h >>= process_refs

/-! ## Remote hierarchy builder: `execute_import`

`execute_import` (lines 522–544) walks the plan folder with
`os.walk(PLAN_FOLDER)`.  The walked folder is embedded as a finite tree of
directories and files; `os.walk` is top-down (a directory's tuple, carrying
its files, is yielded before the tuples of its subdirectories) and
depth-first.  Each file node carries the content the planner copied into the
plan folder — content the source never reads back: line 542 opens
`os.path.join(WORK_FOLDER, md_file)`, the bare basename resolved against the
workspace root. -/

mutual
inductive PTree where
  | node (dirs : PForest) (files : List (List Char × List Char))
inductive PForest where
  | nil
  | cons (name : List Char) (t : PTree) (rest : PForest)
end

/-- Runtime failures of `execute_import`: `keyErr` is the
`confluence_pages[...]` dictionary lookup of line 536 failing, `fileErr` an
IOError from `codecs.open` on the workspace path of line 542, `transErr` an
extraction failure escaping `get_body`, `apiErr` an IndexError escaping
`is_child` inside `create_page`. -/
inductive ExecErr where
  | keyErr
  | fileErr
  | transErr
  | apiErr
  deriving DecidableEq

/-- State threaded through `execute_import`: the remote space plus the
`confluence_pages` map from `page_path` to the created page id. -/
structure ExecSt where
  remote : RemoteSt
  pages : List (List Char × List Char)
  deriving DecidableEq

/-- Python dict lookup in `confluence_pages` (later assignments shadow
earlier ones, hence the front-to-back search over the cons-front list). -/
def lookupPages (ps : List (List Char × List Char)) (k : List Char) :
    Option (List Char) :=
  (ps.find? (fun e => decide (e.1 = k))).map (fun e => e.2)

/-- Python `s.split(sep)` for a one-character separator (line 535). -/
def pySplit (sep : Char) : List Char → List (List Char)
  | [] => [[]]
  | c :: cs =>
    if c = sep then [] :: pySplit sep cs
    else (c :: (pySplit sep cs).headD []) :: (pySplit sep cs).tail

/-- Python `"/".join(es)` (line 536). -/
def joinSlash : List (List Char) → List Char
  | [] => []
  | [e] => e
  | e :: f :: es => e ++ '/' :: joinSlash (f :: es)

/-- The relative `page_path` of a walked directory given its component list:
`""` for the plan root, else `"/a/b"` (what `paths.split(PLAN_FOLDER)[1]`
yields on line 534). -/
def mkPath : List (List Char) → List Char
  | [] => []
  | e :: es => '/' :: (e ++ mkPath es)

/-- The per-file loop of lines 541–544: each `md_file` is read back from
`WORK_FOLDER` — the workspace, not the plan folder — by its bare basename,
transformed by `get_body`, and uploaded under `page_id` with the last 12
characters of the name stripped.  The plan-side copy of the content (second
component of the pair) is ignored, exactly as in the source. -/
def filesLoop (ws : Workspace) (render : List Char → List Char)
    (page_id : List Char) : List (List Char × List Char) → ExecSt →
    Except ExecErr ExecSt
  | [], st => Except.ok st
  | (md_file, _) :: rest, st =>
    match wsFind ws md_file with
    | none => Except.error ExecErr.fileErr
    | some content =>
      match get_body render content with
      | none => Except.error ExecErr.transErr
      | some body =>
        match create_page st.remote (pyDropLast md_file 12) body page_id with
        | none => Except.error ExecErr.apiErr
        | some pr => filesLoop ws render page_id rest ⟨pr.2, st.pages⟩

/-- Lines 537–544 once `ancestor_id` is resolved: `page_id` defaults to the
base id; a non-root directory creates its container page (title
`elems[len(elems) - 1]`, empty body) and records it in `confluence_pages`
under `page_path`; then the files of the directory are processed.
`elems[len(elems) - 1]` is embedded as `getLastD []`; on walk-generated
paths a non-empty `page_path` starts with `/`, so `elems` is never empty and
the default is never consulted. -/
def execNode2 (ws : Workspace) (render : List Char → List Char)
    (base : List Char) (page_path : List Char)
    (files : List (List Char × List Char)) (st : ExecSt)
    (ancestor_id : List Char) : Except ExecErr (List Char × ExecSt) :=
  match (if page_path = [] then Except.ok (base, st)
         else
           match create_page st.remote
               (((pySplit '/' page_path).drop 1).getLastD []) [] ancestor_id with
           | none => Except.error ExecErr.apiErr
           | some pr =>
             Except.ok (pr.1, (⟨pr.2, (page_path, pr.1) :: st.pages⟩ : ExecSt)) :
         Except ExecErr (List Char × ExecSt)) with
  | Except.error e => Except.error e
  | Except.ok (page_id, st2) =>
    match filesLoop ws render page_id files st2 with
    | Except.error e => Except.error e
    | Except.ok st3 => Except.ok (page_id, st3)

/-- One iteration of the `os.walk` loop (lines 534–544): `elems` is
`page_path.split("/")[1:]`; the ancestor id is looked up in
`confluence_pages` under `"/" + "/".join(elems[:-1])` when `len(elems) > 1`
(a KeyError propagates), else it is the space base id. -/
def execNode (ws : Workspace) (render : List Char → List Char)
    (base : List Char) (page_path : List Char)
    (files : List (List Char × List Char)) (st : ExecSt) :
    Except ExecErr (List Char × ExecSt) :=
  match (if 1 < ((pySplit '/' page_path).drop 1).length then
           match lookupPages st.pages
               ('/' :: joinSlash ((pySplit '/' page_path).drop 1).dropLast) with
           | some pid => Except.ok pid
           | none => Except.error ExecErr.keyErr
         else Except.ok base : Except ExecErr (List Char)) with
  | Except.error e => Except.error e
  | Except.ok ancestor_id =>
    execNode2 ws render base page_path files st ancestor_id

/-! Top-down depth-first traversal of the plan tree, as `os.walk` yields it:
a directory's own tuple first (container page plus its files), then each
subdirectory's subtree in order. -/
mutual
def walkTree (ws : Workspace) (render : List Char → List Char)
    (base : List Char) : List Char → PTree → ExecSt → Except ExecErr ExecSt
  | page_path, PTree.node dirs files, st =>
    match execNode ws render base page_path files st with
    | Except.error e => Except.error e
    | Except.ok pst => walkForest ws render base page_path dirs pst.2
def walkForest (ws : Workspace) (render : List Char → List Char)
    (base : List Char) : List Char → PForest → ExecSt → Except ExecErr ExecSt
  | _, PForest.nil, st => Except.ok st
  | parent, PForest.cons name t rest, st =>
    match walkTree ws render base (parent ++ '/' :: name) t st with
    | Except.error e => Except.error e
    | Except.ok st2 => walkForest ws render base parent rest st2
end

/-- `execute_import`: `confluence_pages` starts empty, the base id comes from
`get_space_base_id` (external collaborator, passed as `base`), and the walk
starts at the plan root whose `page_path` is `""`. -/
def execute_import (ws : Workspace) (render : List Char → List Char)
    (base : List Char) (remote0 : RemoteSt) (plan : PTree) :
    Except ExecErr ExecSt :=
  walkTree ws render base [] plan ⟨remote0, []⟩

/-- A directory name containing no `/`, as every name yielded by `os.walk`
does. -/
def slashFree (s : List Char) : Bool := s.all (fun c => decide (c ≠ '/'))

/-! Well-formedness of a walked tree: every directory name is free of path
separators (true of any tree `os.walk` can yield). -/
mutual
def goodTree : PTree → Bool
  | PTree.node dirs _ => goodForest dirs
def goodForest : PForest → Bool
  | PForest.nil => true
  | PForest.cons name t rest => slashFree name && goodTree t && goodForest rest
end

/-- Workspace for the C4 scenario: the export contains `c 12345678.md` with
one content... -/
def wsC4 : Workspace := [(S "c 12345678.md", S "workspace text")]

/-- Plan tree for the C4 scenario: one subfolder `B` holding the plan copy of
`c 12345678.md`, whose copied content differs from the workspace file of the
same basename. -/
def planC4 : PTree :=
  PTree.node (PForest.cons (S "B")
    (PTree.node PForest.nil [(S "c 12345678.md", S "plan text")])
    PForest.nil) []

/-- Initial remote space for the C4 scenario: just the base page, id `"1"`. -/
def remoteC4 : RemoteSt := ⟨[⟨S "1", S "Base", [], []⟩], 2⟩

/-- Plan tree for the C9 witness: nesting `B/C`, two levels deep. -/
def planC9 : PTree :=
  PTree.node (PForest.cons (S "B")
    (PTree.node (PForest.cons (S "C") (PTree.node PForest.nil []) PForest.nil)
      [])
    PForest.nil) []

/-! ## Theorems -/

/-! ### Scanner toolkit -/

/-- A literal is a prefix of itself followed by anything. -/
theorem litHead_self_append : ∀ (p rest : List Char), litHead p (p ++ rest) = true
  | [], _ => rfl
  | a :: ps, rest => by simp [litHead, litHead_self_append ps rest]

/-- A literal is a prefix of itself. -/
theorem litHead_self (p : List Char) : litHead p p = true := by
  have h := litHead_self_append p []
  rwa [List.append_nil] at h

/-- A non-empty literal whose head differs from the text's head does not
match. -/
theorem litHead_ne_head {p0 c : Char} (ps cs : List Char) (h : p0 ≠ c) :
    litHead (p0 :: ps) (c :: cs) = false := by
  simp [litHead, h]

/-- Characters of a matching literal occur in the text. -/
theorem litHead_mem : ∀ (pat t : List Char), litHead pat t = true →
    ∀ x ∈ pat, x ∈ t
  | [], _, _, x, hx => absurd hx (List.not_mem_nil x)
  | _ :: _, [], h, _, _ => by simp [litHead] at h
  | p :: ps, c :: cs, h, x, hx => by
    simp only [litHead] at h
    by_cases hpc : p = c
    · subst hpc
      rcases List.mem_cons.mp hx with hx1 | hx2
      · exact hx1 ▸ List.mem_cons_self p cs
      · exact List.mem_cons_of_mem p
          (litHead_mem ps cs (by simpa using h) x hx2)
    · simp [hpc] at h

/-- `repAux` on the empty text. -/
theorem repAux_nil (pat rep : List Char) (k : Nat) : repAux pat rep k [] = [] := by
  cases k <;> rfl

/-- One character of non-matching text passes through `repAux`. -/
theorem repAux_step (pat rep : List Char) (c : Char) (cs : List Char)
    (h : litHead pat (c :: cs) = false) :
    repAux pat rep 0 (c :: cs) = c :: repAux pat rep 0 cs := by
  simp [repAux, h]

/-- Text free of the pattern's first character passes through `repAux`. -/
theorem repAux_skip {p0 : Char} (ps rep : List Char) :
    ∀ (xs ys : List Char), (∀ x ∈ xs, x ≠ p0) →
    repAux (p0 :: ps) rep 0 (xs ++ ys) = xs ++ repAux (p0 :: ps) rep 0 ys
  | [], _, _ => rfl
  | x :: xs, ys, h => by
    rw [List.cons_append,
      repAux_step _ _ _ _ (litHead_ne_head ps _ (Ne.symm (h x (List.mem_cons_self x xs)))),
      repAux_skip ps rep xs ys (fun a ha => h a (List.mem_cons_of_mem x ha))]
    rfl

/-- Skip-mode of `repAux` consumes exactly the remaining matched
characters. -/
theorem repAux_consume (pat rep : List Char) :
    ∀ (zs ys : List Char), repAux pat rep zs.length (zs ++ ys) = repAux pat rep 0 ys
  | [], _ => rfl
  | z :: zs, ys => by
    rw [List.cons_append]
    show repAux pat rep (zs.length + 1) (z :: (zs ++ ys)) = repAux pat rep 0 ys
    rw [show repAux pat rep (zs.length + 1) (z :: (zs ++ ys)) =
          repAux pat rep zs.length (zs ++ ys) from rfl,
      repAux_consume pat rep zs ys]

/-- A match at the current position is replaced and skipped. -/
theorem repAux_match (p0 : Char) (ps rep rest : List Char) :
    repAux (p0 :: ps) rep 0 ((p0 :: ps) ++ rest) =
      rep ++ repAux (p0 :: ps) rep 0 rest := by
  have h1 : litHead (p0 :: ps) ((p0 :: ps) ++ rest) = true := litHead_self_append _ _
  rw [List.cons_append]
  show (if litHead (p0 :: ps) (p0 :: (ps ++ rest)) then
      rep ++ repAux (p0 :: ps) rep ((p0 :: ps).length - 1) (ps ++ rest)
    else p0 :: repAux (p0 :: ps) rep 0 (ps ++ rest)) = rep ++ repAux (p0 :: ps) rep 0 rest
  rw [List.cons_append] at h1
  rw [h1]
  simp [repAux_consume (p0 :: ps) rep ps rest]

/-- `searchLit` over text free of the pattern's first character. -/
theorem searchLit_skip {p0 : Char} (ps : List Char) :
    ∀ (xs ys : List Char), (∀ x ∈ xs, x ≠ p0) →
    searchLit (p0 :: ps) (xs ++ ys) =
      (searchLit (p0 :: ps) ys).map (fun pr => (xs ++ pr.1, pr.2))
  | [], ys, _ => by simp
  | x :: xs, ys, h => by
    rw [List.cons_append]
    show (if litHead (p0 :: ps) (x :: (xs ++ ys)) then
        some ([], List.drop ((p0 :: ps).length - 1) (xs ++ ys))
      else (searchLit (p0 :: ps) (xs ++ ys)).map (fun p => (x :: p.1, p.2))) = _
    rw [litHead_ne_head ps _ (Ne.symm (h x (List.mem_cons_self x xs))), if_neg (by simp),
      searchLit_skip ps xs ys (fun a ha => h a (List.mem_cons_of_mem x ha))]
    simp [Option.map_map]
    rfl

/-- `searchLit` finds a match at the start of the text. -/
theorem searchLit_self (p0 : Char) (ps rest : List Char) :
    searchLit (p0 :: ps) ((p0 :: ps) ++ rest) = some ([], rest) := by
  rw [List.cons_append]
  show (if litHead (p0 :: ps) (p0 :: (ps ++ rest)) then
      some ([], List.drop ((p0 :: ps).length - 1) (ps ++ rest))
    else (searchLit (p0 :: ps) (ps ++ rest)).map (fun p => (p0 :: p.1, p.2))) = some ([], rest)
  rw [show (p0 :: (ps ++ rest)) = (p0 :: ps) ++ rest from rfl, litHead_self_append, if_pos rfl]
  simp

/-- A pattern containing a character the text lacks never matches. -/
theorem searchLit_none_missing {c : Char} (pat : List Char) (hc : c ∈ pat) :
    ∀ (s : List Char), (∀ a ∈ s, a ≠ c) → searchLit pat s = none := by
  intro s
  induction s with
  | nil => intro _; rfl
  | cons a s ih =>
    intro h
    show (if litHead pat (a :: s) then some ([], List.drop (pat.length - 1) s)
      else (searchLit pat s).map (fun p => (a :: p.1, p.2))) = none
    have hlit : litHead pat (a :: s) = false := by
      cases hl : litHead pat (a :: s)
      · rfl
      · exact absurd rfl (h c (litHead_mem pat (a :: s) hl c hc))
    rw [hlit, if_neg (by simp), ih (fun x hx => h x (List.mem_cons_of_mem a hx))]
    rfl

/-- `takeWhile` passes over a wholly satisfying chunk. -/
theorem takeWhile_append_all (p : Char → Bool) :
    ∀ (xs ys : List Char), (∀ x ∈ xs, p x = true) →
    (xs ++ ys).takeWhile p = xs ++ ys.takeWhile p
  | [], _, _ => rfl
  | x :: xs, ys, h => by
    rw [List.cons_append]
    rw [List.takeWhile_cons_of_pos (h x (List.mem_cons_self x xs))]
    rw [takeWhile_append_all p xs ys (fun a ha => h a (List.mem_cons_of_mem x ha))]
    rfl

/-- A newline-free text is its own line. -/
theorem lineOf_all (zs : List Char) (h : ∀ c ∈ zs, c ≠ '\n') : lineOf zs = zs := by
  have := takeWhile_append_all (fun c => decide (c ≠ '\n')) zs []
    (fun x hx => by simpa using h x hx)
  simpa [lineOf] using this

/-- The accumulator survives a chunk without the character. -/
theorem lastIdxAux_free (c : Char) :
    ∀ (ys : List Char), (∀ a ∈ ys, a ≠ c) → ∀ (i : Nat) (best : Option Nat),
    lastIdxAux c i best ys = best
  | [], _, _, _ => rfl
  | y :: ys, h, i, best => by
    rw [show lastIdxAux c i best (y :: ys) =
          lastIdxAux c (i + 1) (if y = c then some i else best) ys from rfl,
      if_neg (h y (List.mem_cons_self y ys)),
      lastIdxAux_free c ys (fun a ha => h a (List.mem_cons_of_mem y ha))]

/-- The last occurrence of `c` when the tail after it is `c`-free. -/
theorem lastIdxAux_last (c : Char) :
    ∀ (xs ys : List Char), (∀ a ∈ ys, a ≠ c) → ∀ (i : Nat) (best : Option Nat),
    lastIdxAux c i best (xs ++ c :: ys) = some (i + xs.length)
  | [], ys, h, i, best => by
    rw [List.nil_append]
    rw [show lastIdxAux c i best (c :: ys) =
          lastIdxAux c (i + 1) (if c = c then some i else best) ys from rfl,
      if_pos rfl, lastIdxAux_free c ys h]
    simp
  | x :: xs, ys, h, i, best => by
    rw [List.cons_append]
    rw [show lastIdxAux c i best (x :: (xs ++ c :: ys)) =
          lastIdxAux c (i + 1) (if x = c then some i else best) (xs ++ c :: ys) from rfl,
      lastIdxAux_last c xs ys h (i + 1)]
    simp only [List.length_cons]
    congr 1
    omega

/-- A digit differs from every non-digit character. -/
theorem digit_ne_of {d : Char} (hd : d.isDigit = true) (c : Char)
    (hc : c.isDigit = false) : d ≠ c := by
  intro e
  rw [e, hc] at hd
  exact Bool.noConfusion hd

/-- A literal prefix of `s` is a literal prefix of `s ++ u`. -/
theorem litHead_append : ∀ (p s u : List Char), litHead p s = true →
    litHead p (s ++ u) = true
  | [], _, _, _ => rfl
  | _ :: _, [], _, h => by simp [litHead] at h
  | a :: ps, b :: bs, u, h => by
    simp only [litHead] at h
    by_cases hab : a = b
    · simpa [litHead, hab] using litHead_append ps bs u (by simpa [hab] using h)
    · simp [hab] at h

/-- The `is_index_file` loop with its early return computes `List.all`. -/
theorem isIndexLoop_eq_all : ∀ ls : List (List Char),
    isIndexLoop ls = ls.all matchesIndexEntry
  | [] => rfl
  | l :: ls => by
    by_cases h : matchesIndexEntry l
    · simp [isIndexLoop, h, isIndexLoop_eq_all ls]
    · simp [isIndexLoop, List.all_cons, h]

/-- C1: the claim states that sanitisation strips exactly the 3-character
`.md` suffix.  The source slices `file_name[:-12]`: on `"about.md"` (shorter
than 12 characters) this yields the empty string, not `"about"`; the same
12-character slice is used for page titles in `execute_import`. -/
theorem C1_counterexample :
    get_subfolder_name (S "about.md") = [] ∧
    pyDropLast (S "about.md") 12 = [] ∧ S "about" ≠ [] := by decide

/-- C1 (amended): for every file name ending in a 12-character suffix that
itself ends in `.md` — Nuclino's `" xxxxxxxx.md"` export suffix — the
sanitised name is the name with those 12 trailing characters removed and
spaces replaced by underscores, and `execute_import`'s title derivation drops
the same 12 trailing characters. -/
theorem C1_amended (t suf : List Char) (hlen : suf.length = 12)
    (hmd : litTail (S ".md") suf = true) :
    get_subfolder_name (t ++ suf) = pyReplace t (S " ") (S "_") ∧
    pyDropLast (t ++ suf) 12 = t := by
  have hdrop : pyDropLast (t ++ suf) 12 = t := by
    unfold pyDropLast
    rw [List.length_append, hlen, Nat.add_sub_cancel]
    exact List.take_left t suf
  have htail : litTail (S ".md") (t ++ suf) = true := by
    unfold litTail at hmd ⊢
    rw [List.reverse_append]
    exact litHead_append _ _ _ hmd
  refine ⟨?_, hdrop⟩
  unfold get_subfolder_name
  rw [htail]
  simp only [if_true, hdrop]

/-- C1 amended, instantiated: `"my page 12345678.md"` sanitises to
`"my_page"`. -/
theorem C1_witness :
    get_subfolder_name (S "my page 12345678.md") = S "my_page" := by
  have h := (C1_amended (S "my page") (S " 12345678.md") (by decide) (by decide)).1
  rw [show S "my page" ++ S " 12345678.md" = S "my page 12345678.md" from rfl] at h
  rw [h]; decide

/-- C5: a file is classified as an index iff every line matches the Index
Entry pattern; the empty file is vacuously an index; one non-matching line
forces the leaf classification. -/
theorem C5_index_classification :
    (∀ content, is_index_file content = true ↔
      ∀ l ∈ pyLines content, matchesIndexEntry l = true) ∧
    is_index_file (S "") = true ∧
    (∀ content l, l ∈ pyLines content → matchesIndexEntry l = false →
      is_index_file content = false) := by
  have key : ∀ content, is_index_file content = true ↔
      ∀ l ∈ pyLines content, matchesIndexEntry l = true := by
    intro content
    unfold is_index_file
    rw [isIndexLoop_eq_all]
    exact List.all_eq_true
  refine ⟨key, by decide, ?_⟩
  intro content l hmem hbad
  by_contra hne
  have htrue : is_index_file content = true := by
    cases h : is_index_file content
    · exact absurd h hne
    · rfl
  exact absurd ((key content).mp htrue l hmem) (by simp [hbad])

/-- C5 instantiated: a file with one matching and one non-matching line is a
leaf, the empty file is an index. -/
theorem C5_witness :
    is_index_file (S "* [A](a.md)\nnope") = false ∧ is_index_file (S "") = true := by
  refine ⟨?_, C5_index_classification.2.1⟩
  exact C5_index_classification.2.2 (S "* [A](a.md)\nnope") (S "nope")
    (by decide) (by decide)

/-- C2: the claim says the builder reuses a page iff one with the same title
has the intended ancestor as immediate parent.  In the source, `is_child`
compares the last ancestor with the child itself and never with the intended
ancestor, so page `"2"` — titled `"T"`, immediate parent `"1"` — is not
recognised as a child of `"1"`, `get_page_id` finds nothing, and a second run
of `create_page` produces a duplicate `"T"` page under `"1"`. -/
theorem C2_reuse_check_broken :
    is_child pagesT (S "2") (S "1") = some false ∧
    get_page_id pagesT (S "T") (S "1") = some [] ∧
    ((create_page ⟨pagesT, 3⟩ (S "T") [] (S "1")).map
      (fun pr => (pr.2.pages.filter (fun p =>
        decide (p.title = S "T") && decide (p.ancestors.getLast? = some (S "1")))).length))
      = some 2 := by decide

/-- C6: the claim says any blockquote beginning with a case-insensitive
"Note"/"Warning" label becomes the matching callout *with the label
stripped, for every casing*.  The source passes `re.IGNORECASE` (= 2) as the
`count` argument of every `re.sub` in `strip_type`, so stripping is
case-sensitive: the lowercase label `note:` is detected (the detection
`re.search` does pass `re.IGNORECASE` correctly) but survives stripping, only
re-capitalised; the exact-case label `Note:` is stripped. -/
theorem C6_label_strip_case_sensitive :
    convert_info_macros (S "<blockquote><p>note: x</p></blockquote>")
      = some (note_tag ++ S "Note: x" ++ close_tag) ∧
    convert_info_macros (S "<blockquote><p>Note: hello</p></blockquote>")
      = some (note_tag ++ S "Hello" ++ close_tag) := by decide

/-- On `w3` the root call reproduces itself: the nested index `sub/index.md`
is passed on as its basename `index.md`, which resolves back to the root
index, with destination `get_subfolder_name "index.md" = ""`.  Hence no
amount of fuel completes the run. -/
theorem w3_root_loops : ∀ (n : Nat) (st : PlanSt),
    process_index w3 n [] (S "index.md") st = none := by
  intro n
  induction n with
  | zero => intro st; rfl
  | succ n ih =>
    intro st
    have step : process_index w3 (n + 1) [] (S "index.md") st =
        contOf (process_index w3 n [] (S "index.md")
            ⟨st.dirs, ([], S "a.md", S "Hello") :: st.files⟩)
          (fun st2 => some (PlanRes.ok st2)) := rfl
    rw [step, ih]
    rfl

/-- C3: on the claimed scenario — root index listing `[A](a.md)` and
`[B](sub/index.md)`, the latter an index listing `[C](sub/c.md)` — planning
produces nothing at all: the recursive call receives only the basename
`index.md` (whose sanitised subfolder name is moreover `""`, not `"B"`),
re-opens the root index and never terminates. -/
theorem C3_plan_diverges :
    basename (S "sub/index.md") = S "index.md" ∧
    get_subfolder_name (S "index.md") = [] ∧
    ¬ planTerminates w3 := by
  refine ⟨by decide, by decide, ?_⟩
  rintro ⟨fuel, r, h⟩
  unfold plan_import at h
  rw [w3_root_loops] at h
  exact Option.noConfusion h

/-- C10: the resolved index-reference relation of `w3` is acyclic (witnessed
by a rank function strictly decreasing along every reference step), yet
`process_index` does not terminate on it: because the recursion re-resolves
only basenames against the workspace root, its termination does not follow
from well-foundedness of the reference relation. -/
theorem C10_acyclic_yet_divergent :
    (∀ a b, refStep w3 a b → rank3 b < rank3 a) ∧ ¬ planTerminates w3 := by
  constructor
  · intro a b h
    unfold refStep at h
    by_cases h1 : a = S "index.md"
    · subst h1
      rw [show resolvedTargets w3 (S "index.md") = [S "a.md", S "sub/index.md"]
        from by decide] at h
      rcases List.mem_cons.mp h with hb | hb
      · subst hb; decide
      · rcases List.mem_cons.mp hb with hb2 | hb2
        · subst hb2; decide
        · exact absurd hb2 (List.not_mem_nil b)
    · by_cases h2 : a = S "sub/index.md"
      · subst h2
        rw [show resolvedTargets w3 (S "sub/index.md") = [S "sub/c.md"]
          from by decide] at h
        rcases List.mem_cons.mp h with hb | hb
        · subst hb; decide
        · exact absurd hb (List.not_mem_nil b)
      · by_cases h3 : a = S "a.md"
        · subst h3
          rw [show resolvedTargets w3 (S "a.md") = [] from by decide] at h
          exact absurd h (List.not_mem_nil b)
        · by_cases h4 : a = S "sub/c.md"
          · subst h4
            rw [show resolvedTargets w3 (S "sub/c.md") = [] from by decide] at h
            exact absurd h (List.not_mem_nil b)
          · have hnone : wsFind w3 a = none := by
              simp [wsFind, w3, List.find?, Ne.symm h1, Ne.symm h2, Ne.symm h3,
                Ne.symm h4]
            unfold resolvedTargets at h
            rw [hnone] at h
            exact absurd h (List.not_mem_nil b)
  · rintro ⟨fuel, r, h⟩
    unfold plan_import at h
    rw [w3_root_loops] at h
    exact Option.noConfusion h

/-- C10's acyclicity hypothesis discharged on the concrete reference step
from the root index to the nested index. -/
theorem C10_witness : rank3 (S "sub/index.md") < rank3 (S "index.md") :=
  C10_acyclic_yet_divergent.1 (S "index.md") (S "sub/index.md")
    (show S "sub/index.md" ∈ resolvedTargets w3 (S "index.md") from by decide)

/-! ### C7: code-block conversion -/

/-- Re-associate a merged pair of literals inside a concatenation. -/
theorem lit_merge {a b c : List Char} (h : a ++ b = c) (X : List Char) :
    a ++ (b ++ X) = c ++ X := by rw [← List.append_assoc, h]

/-- Appending to a non-empty list is non-empty. -/
theorem append_ne_nil_lit {a : List Char} (h : a ≠ []) (X : List Char) :
    a ++ X ≠ [] := by
  cases a with
  | nil => exact absurd rfl h
  | cons c cs => simp

/-- Members of a `takeWhile` come from the list. -/
theorem mem_of_mem_takeWhile {p : Char → Bool} :
    ∀ (l : List Char) (a : Char), a ∈ l.takeWhile p → a ∈ l
  | [], _, ha => absurd ha (List.not_mem_nil _)
  | x :: xs, a, ha => by
    by_cases hx : p x
    · rw [List.takeWhile_cons_of_pos hx] at ha
      rcases List.mem_cons.mp ha with h1 | h2
      · exact h1 ▸ List.mem_cons_self x xs
      · exact List.mem_cons_of_mem x (mem_of_mem_takeWhile xs a h2)
    · rw [List.takeWhile_cons_of_neg (by simpa using hx)] at ha
      exact absurd ha (List.not_mem_nil _)

/-- The code-block scanner finds nothing in an empty text. -/
theorem findCodeBlocks_nilF : ∀ f : Nat, findCodeBlocks f [] = []
  | 0 => rfl
  | _ + 1 => rfl

/-- Replacing a non-empty text by itself yields the replacement. -/
theorem pyReplace_self_of (t rep : List Char) (h : t ≠ []) :
    pyReplace t t rep = rep := by
  cases t with
  | nil => exact absurd rfl h
  | cons c cs =>
    unfold pyReplace
    rw [if_neg (by simp)]
    have hm := repAux_match c cs rep []
    rw [List.append_nil] at hm
    rw [hm, repAux_nil, List.append_nil]

/-- Scanner behaviour on one well-formed `<pre><code…>…</code></pre>` region:
`mid` is the opening-tag remainder (no `>`), `b` the body (no `<`).  The
findall loop returns exactly this region and the content re-extraction
returns the body. -/
theorem codeScan_single (mid b : List Char)
    (hmid : ∀ c ∈ mid, c ≠ '>') (hb : ∀ c ∈ b, c ≠ '<') :
    (∀ f, findCodeBlocks (f + 1)
        (S "<pre><code" ++ (mid ++ (S ">" ++ (b ++ S "</code></pre>"))))
      = [S "<pre><code" ++ (mid ++ (S ">" ++ (b ++ S "</code></pre>")))]) ∧
    codeContent (S "<pre><code" ++ (mid ++ (S ">" ++ (b ++ S "</code></pre>"))))
      = some b := by
  have h1 : searchLit (S "<pre><code")
      (S "<pre><code" ++ (mid ++ (S ">" ++ (b ++ S "</code></pre>"))))
      = some ([], mid ++ (S ">" ++ (b ++ S "</code></pre>"))) :=
    searchLit_self '<' (S "pre><code") _
  have hself2 : searchLit (S ">") (S ">" ++ (b ++ S "</code></pre>"))
      = some ([], b ++ S "</code></pre>") := searchLit_self '>' [] _
  have h2 : searchLit (S ">") (mid ++ (S ">" ++ (b ++ S "</code></pre>")))
      = some (mid, b ++ S "</code></pre>") := by
    have hsk : searchLit (S ">") (mid ++ (S ">" ++ (b ++ S "</code></pre>")))
        = (searchLit (S ">") (S ">" ++ (b ++ S "</code></pre>"))).map
            (fun pr => (mid ++ pr.1, pr.2)) :=
      searchLit_skip [] mid _ hmid
    rw [hsk, hself2]
    simp
  have hself3 : searchLit (S "</code></pre>") (S "</code></pre>")
      = some ([], []) := by
    have h := searchLit_self '<' (S "/code></pre>") []
    rwa [List.append_nil] at h
  have h3 : searchLit (S "</code></pre>") (b ++ S "</code></pre>")
      = some (b, []) := by
    have hsk : searchLit (S "</code></pre>") (b ++ S "</code></pre>")
        = (searchLit (S "</code></pre>") (S "</code></pre>")).map
            (fun pr => (b ++ pr.1, pr.2)) :=
      searchLit_skip (S "/code></pre>") b _ hb
    rw [hsk, hself3]
    simp
  constructor
  · intro f
    simp only [findCodeBlocks, h1, h2, h3, findCodeBlocks_nilF]
    simp [List.append_assoc]
  · simp only [codeContent, h1, h2, h3, Option.map_some']

/-- Language capture on a region with a class attribute: the greedy capture
stops at the last quote of the line, which under the hypotheses is the
attribute's closing quote. -/
theorem extractLang_class (v b : List Char)
    (hv : ∀ c ∈ v, c ≠ '"' ∧ c ≠ '\n') (hb : ∀ c ∈ b, c ≠ '"') :
    extractLang (S "<pre><code class=\"" ++ (v ++ (S "\">" ++ (b ++ S "</code></pre>"))))
      = some v := by
  have etag : S "<pre><code class=\"" ++ (v ++ (S "\">" ++ (b ++ S "</code></pre>")))
      = S "<pre><" ++ (S "code class=\"" ++ (v ++ (S "\">" ++ (b ++ S "</code></pre>")))) := by
    rw [lit_merge (show S "<pre><" ++ S "code class=\"" = S "<pre><code class=\"" from by decide)]
  have hse : searchLit (S "code class=\"")
      (S "code class=\"" ++ (v ++ (S "\">" ++ (b ++ S "</code></pre>"))))
      = some ([], v ++ (S "\">" ++ (b ++ S "</code></pre>"))) :=
    searchLit_self 'c' (S "ode class=\"") _
  have hsk : searchLit (S "code class=\"")
      (S "<pre><" ++ (S "code class=\"" ++ (v ++ (S "\">" ++ (b ++ S "</code></pre>")))))
      = (searchLit (S "code class=\"")
          (S "code class=\"" ++ (v ++ (S "\">" ++ (b ++ S "</code></pre>"))))).map
          (fun pr => (S "<pre><" ++ pr.1, pr.2)) :=
    searchLit_skip (S "ode class=\"") (S "<pre><") _ (by decide)
  have hline : lineOf (v ++ (S "\">" ++ (b ++ S "</code></pre>")))
      = v ++ ('"' :: lineOf (S ">" ++ (b ++ S "</code></pre>"))) := by
    unfold lineOf
    rw [takeWhile_append_all _ v _ (fun x hx => by simp [(hv x hx).2])]
    show v ++ List.takeWhile (fun c => decide (c ≠ '\n'))
        ('"' :: (S ">" ++ (b ++ S "</code></pre>"))) = _
    rw [List.takeWhile_cons_of_pos (by decide)]
  have hfree : ∀ a ∈ lineOf (S ">" ++ (b ++ S "</code></pre>")), a ≠ '"' := by
    intro a ha
    have hmem : a ∈ S ">" ++ (b ++ S "</code></pre>") :=
      mem_of_mem_takeWhile _ a ha
    have hgt : ∀ x ∈ S ">", x ≠ '"' := by decide
    have hcl : ∀ x ∈ S "</code></pre>", x ≠ '"' := by decide
    rcases List.mem_append.mp hmem with hx | hx
    · exact hgt a hx
    · rcases List.mem_append.mp hx with hy | hy
      · exact hb a hy
      · exact hcl a hy
  have hlast : lastIdx '"' (v ++ ('"' :: lineOf (S ">" ++ (b ++ S "</code></pre>"))))
      = some v.length := by
    unfold lastIdx
    rw [lastIdxAux_last '"' v _ hfree 0 none]
    simp
  show extractLangF _ _ = some v
  rw [etag]
  simp only [extractLangF, hsk, hse, Option.map_some', List.append_nil, hline, hlast]
  rw [List.take_left]

/-- Language capture on a region without any `code class="` occurrence: the
search fails because the region contains no double quote at all. -/
theorem extractLang_noclass (b : List Char) (hb : ∀ c ∈ b, c ≠ '"') :
    extractLang (S "<pre><code>" ++ (b ++ S "</code></pre>")) = none := by
  have hnone : searchLit (S "code class=\"")
      (S "<pre><code>" ++ (b ++ S "</code></pre>")) = none := by
    refine searchLit_none_missing (c := '"') _ (by decide) _ ?_
    intro a ha
    have hop : ∀ x ∈ S "<pre><code>", x ≠ '"' := by decide
    have hcl : ∀ x ∈ S "</code></pre>", x ≠ '"' := by decide
    rcases List.mem_append.mp ha with hx | hx
    · exact hop a hx
    · rcases List.mem_append.mp hx with hy | hy
      · exact hb a hy
      · exact hcl a hy
  show extractLangF _ _ = none
  simp only [extractLangF, hnone]

/-- C7: the claim says the language parameter equals the class-attribute
value whenever one is present.  The capture `code class="(.*)"` is greedy and
line-confined: with a raw `"` in the body, the parameter becomes everything
up to the body's last quote, not the class value. -/
theorem C7_counterexample :
    extractLang (S "<pre><code class=\"python\">x = \"hi\"</code></pre>")
      = some (S "python\">x = \"hi") ∧
    S "python\">x = \"hi" ≠ S "python" ∧
    convert_code_block (S "<pre><code class=\"python\">x = \"hi\"</code></pre>")
      = some (decodeEntities
          (macroHead ++ (S "python\">x = \"hi" ++ (macroMid ++ (S "x = \"hi\"" ++ macroTail))))) := by
  refine ⟨by decide, by decide, by decide⟩

/-- C7 (amended): for every `<pre><code>` region, the language parameter is
the greedy `code class="(.*)"` capture — which equals the class value when no
later raw `"` can interfere (here: none in the class value or body) — or the
literal `none` when the search fails (here: no `code class="` can occur
because the region is quote-free); the extracted body is embedded in the
macro and the four HTML entities are decoded by exactly one application of
the replacement chain, whose single application maps `&amp;lt;` to `&lt;`
(not `<`) and `&lt;` to `<`. -/
theorem C7_amended :
    (∀ v b : List Char, (∀ c ∈ v, c ≠ '"' ∧ c ≠ '>' ∧ c ≠ '\n') →
      (∀ c ∈ b, c ≠ '"' ∧ c ≠ '<') →
      convert_code_block
          (S "<pre><code class=\"" ++ (v ++ (S "\">" ++ (b ++ S "</code></pre>"))))
        = some (decodeEntities
            (macroHead ++ (v ++ (macroMid ++ (b ++ macroTail)))))) ∧
    (∀ b : List Char, (∀ c ∈ b, c ≠ '"' ∧ c ≠ '<') →
      convert_code_block (S "<pre><code>" ++ (b ++ S "</code></pre>"))
        = some (decodeEntities
            (macroHead ++ (S "none" ++ (macroMid ++ (b ++ macroTail)))))) ∧
    decodeEntities (S "&amp;lt;") = S "&lt;" ∧
    decodeEntities (S "&lt;") = S "<" := by
  refine ⟨?_, ?_, by decide, by decide⟩
  · intro v b hv hb
    have etag : S "<pre><code class=\"" ++ (v ++ (S "\">" ++ (b ++ S "</code></pre>")))
        = S "<pre><code" ++ ((S " class=\"" ++ (v ++ S "\"")) ++ (S ">" ++ (b ++ S "</code></pre>"))) := by
      rw [show (S " class=\"" ++ (v ++ S "\"")) ++ (S ">" ++ (b ++ S "</code></pre>"))
            = S " class=\"" ++ (v ++ (S "\"" ++ (S ">" ++ (b ++ S "</code></pre>")))) by
        simp [List.append_assoc]]
      rw [lit_merge (show S "<pre><code" ++ S " class=\"" = S "<pre><code class=\"" from by decide)]
      rw [lit_merge (show S "\"" ++ S ">" = S "\">" from by decide)]
    have hmid : ∀ c ∈ S " class=\"" ++ (v ++ S "\""), c ≠ '>' := by
      intro c hc
      have hop : ∀ x ∈ S " class=\"", x ≠ '>' := by decide
      have hq : ∀ x ∈ S "\"", x ≠ '>' := by decide
      rcases List.mem_append.mp hc with hx | hx
      · exact hop c hx
      · rcases List.mem_append.mp hx with hy | hy
        · exact (hv c hy).2.1
        · exact hq c hy
    have hb2 : ∀ c ∈ b, c ≠ '<' := fun c hc => (hb c hc).2
    have hscan := codeScan_single (S " class=\"" ++ (v ++ S "\"")) b hmid hb2
    have hlang := extractLang_class v b (fun c hc => ⟨(hv c hc).1, (hv c hc).2.2⟩)
      (fun c hc => (hb c hc).1)
    unfold convert_code_block
    rw [etag] at hlang ⊢
    rw [hscan.1]
    show cbLoop [_] _ = _
    simp only [cbLoop, codeBlockOf, hlang, hscan.2, Option.map_some']
    rw [pyReplace_self_of _ _ (append_ne_nil_lit (by decide) _)]
    simp [List.append_assoc]
  · intro b hb
    have etag : S "<pre><code>" ++ (b ++ S "</code></pre>")
        = S "<pre><code" ++ ([] ++ (S ">" ++ (b ++ S "</code></pre>"))) := by
      rw [List.nil_append]
      rw [lit_merge (show S "<pre><code" ++ S ">" = S "<pre><code>" from by decide)]
    have hb2 : ∀ c ∈ b, c ≠ '<' := fun c hc => (hb c hc).2
    have hscan := codeScan_single [] b (by simp) hb2
    have hlang := extractLang_noclass b (fun c hc => (hb c hc).1)
    unfold convert_code_block
    rw [etag] at hlang ⊢
    rw [hscan.1]
    show cbLoop [_] _ = _
    simp only [cbLoop, codeBlockOf, hlang, hscan.2, Option.map_some']
    rw [pyReplace_self_of _ _ (append_ne_nil_lit (by decide) _)]
    simp [List.append_assoc]

/-- C7's amended statement instantiated on a concrete ruby block with an
escaped `<` in the body. -/
theorem C7_witness :
    convert_code_block (S "<pre><code class=\"ruby\">x &lt; 2</code></pre>")
      = some (decodeEntities
          (macroHead ++ (S "ruby" ++ (macroMid ++ (S "x &lt; 2" ++ macroTail))))) := by
  have h := C7_amended.1 (S "ruby") (S "x &lt; 2") (by decide) (by decide)
  rwa [show S "<pre><code class=\"" ++ (S "ruby" ++ (S "\">" ++ (S "x &lt; 2" ++ S "</code></pre>")))
        = S "<pre><code class=\"ruby\">x &lt; 2</code></pre>" from by decide] at h

/-! ### C8: footnote conversion -/

/-- A character that starts no match extends a failing search. -/
theorem searchLit_none_step (pat : List Char) (c : Char) (cs : List Char)
    (hlit : litHead pat (c :: cs) = false) (h : searchLit pat cs = none) :
    searchLit pat (c :: cs) = none := by
  show (if litHead pat (c :: cs) then some ([], List.drop (pat.length - 1) cs)
    else (searchLit pat cs).map (fun p => (c :: p.1, p.2))) = none
  rw [hlit, if_neg (by simp), h]
  rfl

/-- A chunk free of the pattern's first character extends a failing
search. -/
theorem searchLit_none_skip {p0 : Char} (ps xs ys : List Char)
    (hx : ∀ x ∈ xs, x ≠ p0) (h : searchLit (p0 :: ps) ys = none) :
    searchLit (p0 :: ps) (xs ++ ys) = none := by
  rw [searchLit_skip ps xs ys hx, h]
  rfl

/-- A failing search means the replacement is the identity. -/
theorem repAux_noop (pat rep : List Char) :
    ∀ s, searchLit pat s = none → repAux pat rep 0 s = s
  | [], _ => rfl
  | c :: cs, h => by
    have hlit : litHead pat (c :: cs) = false := by
      cases hl : litHead pat (c :: cs)
      · rfl
      · rw [show searchLit pat (c :: cs) =
            (if litHead pat (c :: cs) then some ([], List.drop (pat.length - 1) cs)
             else (searchLit pat cs).map (fun p => (c :: p.1, p.2))) from rfl,
          hl, if_pos rfl] at h
        exact Option.noConfusion h
    have hrest : searchLit pat cs = none := by
      rw [show searchLit pat (c :: cs) =
          (if litHead pat (c :: cs) then some ([], List.drop (pat.length - 1) cs)
           else (searchLit pat cs).map (fun p => (c :: p.1, p.2))) from rfl,
        hlit, if_neg (by simp)] at h
      cases hs : searchLit pat cs
      · rfl
      · rw [hs] at h
        exact Option.noConfusion h
    rw [repAux_step pat rep c cs hlit, repAux_noop pat rep cs hrest]

/-- `findRefsF` on the empty text. -/
theorem findRefsF_nil : ∀ f : Nat, findRefsF f [] = []
  | 0 => rfl
  | _ + 1 => rfl

/-- No findall alternative starts at an ordinary character. -/
theorem refAt_none (c : Char) (cs : List Char) (h1 : c ≠ '\n') (h2 : c ≠ '<') :
    refAt (c :: cs) = none := by
  simp [refAt, h1, h2]

/-- The findall scan passes over a chunk containing neither newline nor
`<`. -/
theorem findRefsF_skip :
    ∀ (xs : List Char) (f : Nat) (ys : List Char),
    (∀ c ∈ xs, c ≠ '\n' ∧ c ≠ '<') →
    findRefsF (f + xs.length) (xs ++ ys) = findRefsF f ys
  | [], _, _, _ => rfl
  | x :: xs, f, ys, h => by
    have hx := h x (List.mem_cons_self x xs)
    show findRefsF ((f + xs.length) + 1) (x :: (xs ++ ys)) = findRefsF f ys
    have hr : refAt (x :: (xs ++ ys)) = none := refAt_none x _ hx.1 hx.2
    simp only [findRefsF, hr]
    exact findRefsF_skip xs f ys (fun c hc => h c (List.mem_cons_of_mem x hc))

/-- The first findall alternative on a well-formed definition line. -/
theorem refBody_match (d : Char) (hd : d.isDigit = true) (rest : List Char)
    (hrest : ∀ c ∈ rest, c ≠ '\n') :
    refBody ('[' :: ('^' :: (d :: (']' :: rest))))
      = some (⟨true, S "[^" ++ [d] ++ S "]" ++ rest, d⟩,
          1 + (S "[^" ++ [d] ++ S "]" ++ rest).length) := by
  simp only [refBody, hd, if_true, lineOf_all rest hrest]

/-- A match fails when the pattern's head differs from the text's head,
where the pattern's head is given through `head?`. -/
theorem litHead_false_head (pat : List Char) (c p0 : Char) (cs : List Char)
    (hh : pat.head? = some p0) (hne : p0 ≠ c) : litHead pat (c :: cs) = false := by
  cases pat with
  | nil => simp at hh
  | cons q qs =>
    have hq : q = p0 := by simpa using hh
    subst hq
    exact litHead_ne_head qs cs hne

/-- A mismatch inside a sufficiently long text persists under appending. -/
theorem litHead_false_append :
    ∀ (pat z ys : List Char), pat.length ≤ z.length → litHead pat z = false →
    litHead pat (z ++ ys) = false
  | [], _, _, _, h => by simp [litHead] at h
  | _ :: _, [], _, hlen, _ => by simp at hlen
  | p :: ps, z :: zs, ys, hlen, h => by
    rw [List.cons_append]
    by_cases hpz : p = z
    · subst hpz
      simp only [litHead] at h ⊢
      simp only [if_true] at h ⊢
      exact litHead_false_append ps zs ys (by simpa using hlen) h
    · exact litHead_ne_head _ _ hpz

/-- A short text that is not a prefix of the pattern blocks any match
through it. -/
theorem litHead_false_of_rev :
    ∀ (pat z ys : List Char), z.length < pat.length → litHead z pat = false →
    litHead pat (z ++ ys) = false
  | _, [], _, _, h => by simp [litHead] at h
  | [], _ :: _, _, hlen, _ => by simp at hlen
  | p :: ps, z :: zs, ys, hlen, h => by
    rw [List.cons_append]
    by_cases hpz : z = p
    · subst hpz
      simp only [litHead] at h ⊢
      simp only [if_true] at h ⊢
      exact litHead_false_of_rev ps zs ys (by simpa using hlen) h
    · exact litHead_ne_head _ _ (fun e => hpz e.symm)

/-- A chunk that is `chunkSafe` for the pattern extends a failing search. -/
theorem searchLit_none_chunk (pat : List Char) :
    ∀ (lit ys : List Char), chunkSafe pat lit = true → searchLit pat ys = none →
    searchLit pat (lit ++ ys) = none
  | [], _, _, h => h
  | l :: ls, ys, hsafe, h => by
    rw [List.cons_append]
    have hparts := hsafe
    simp only [chunkSafe, Bool.and_eq_true] at hparts
    have hfalse : litHead pat ((l :: ls) ++ ys) = false := by
      by_cases hl : pat.length ≤ (l :: ls).length
      · rw [if_pos hl] at hparts
        exact litHead_false_append pat (l :: ls) ys hl (by simpa using hparts.1)
      · rw [if_neg hl] at hparts
        exact litHead_false_of_rev pat (l :: ls) ys (by omega) (by simpa using hparts.1)
    rw [List.cons_append] at hfalse
    exact searchLit_none_step pat l (ls ++ ys) hfalse
      (searchLit_none_chunk pat ls ys hparts.2 h)

/-- A chunk that is `chunkSafe` for the pattern passes through `repAux`. -/
theorem repAux_chunk (pat rep : List Char) :
    ∀ (lit ys : List Char), chunkSafe pat lit = true →
    repAux pat rep 0 (lit ++ ys) = lit ++ repAux pat rep 0 ys
  | [], _, _ => rfl
  | l :: ls, ys, hsafe => by
    rw [List.cons_append]
    have hparts := hsafe
    simp only [chunkSafe, Bool.and_eq_true] at hparts
    have hfalse : litHead pat ((l :: ls) ++ ys) = false := by
      by_cases hl : pat.length ≤ (l :: ls).length
      · rw [if_pos hl] at hparts
        exact litHead_false_append pat (l :: ls) ys hl (by simpa using hparts.1)
      · rw [if_neg hl] at hparts
        exact litHead_false_of_rev pat (l :: ls) ys (by omega) (by simpa using hparts.1)
    rw [List.cons_append] at hfalse
    rw [repAux_step pat rep l (ls ++ ys) hfalse,
      repAux_chunk pat rep ls ys hparts.2]
    rfl

/-- The per-reference loop fails exactly when some found reference has no
href. -/
theorem refsLoop_none_iff : ∀ (rs : List Ref) (html : List Char),
    refsLoop rs html = none ↔ ∃ r ∈ rs, hrefOf (fullRefOf r) = none := by
  intro rs
  induction rs with
  | nil =>
    intro html
    simp [refsLoop]
  | cons r rs ih =>
    intro html
    show (match hrefOf (fullRefOf r) with
      | none => none
      | some u =>
        refsLoop rs (pyReplace (pyReplace html (fullRefOf r) [])
          (S "[^" ++ [r.d] ++ S "]")
          (S "<a id=\"test\" href=\"" ++ u ++ S "\"><sup>" ++ [r.d] ++ S "</sup></a>"))) = none ↔ _
    cases h : hrefOf (fullRefOf r) with
    | none =>
      constructor
      · intro _
        exact ⟨r, List.mem_cons_self r rs, h⟩
      · intro _
        rfl
    | some u =>
      rw [ih]
      constructor
      · rintro ⟨r2, hr2, hn⟩
        exact ⟨r2, List.mem_cons_of_mem r hr2, hn⟩
      · rintro ⟨r2, hr2, hn⟩
        rcases List.mem_cons.mp hr2 with he | hm
        · subst he
          rw [h] at hn
          exact Option.noConfusion hn
        · exact ⟨r2, hm, hn⟩

/-- One scan step at a position where a findall alternative matches. -/
theorem findRefsF_step_some (f : Nat) (cs : List Char) (r : Ref) (n : Nat)
    (h : refAt cs = some (r, n)) :
    findRefsF (f + 1) cs = r :: findRefsF f (cs.drop n) := by
  simp only [findRefsF]
  rw [h]

/-- The findall scan on the C8 schema finds exactly the definition line. -/
theorem findRefs_schema (d : Char) (pre mid u t : List Char)
    (hd : d.isDigit = true)
    (hpre : ∀ c ∈ pre, c ≠ '\n' ∧ c ≠ '<' ∧ c ≠ '[')
    (hmid : ∀ c ∈ mid, c ≠ '\n' ∧ c ≠ '<' ∧ c ≠ '[' ∧ c ≠ ':')
    (hu : ∀ c ∈ u, c ≠ '\n' ∧ c ≠ '<' ∧ c ≠ '[' ∧ c ≠ '"')
    (ht : ∀ c ∈ t, c ≠ '\n' ∧ c ≠ '<' ∧ c ≠ '[') :
    findRefs (pre ++ (marker d ++ (mid ++ ('\n' :: fnDef d u t))))
      = [⟨true, fnDef d u t, d⟩] := by
  have hxs : ∀ c ∈ pre ++ (marker d ++ mid), c ≠ '\n' ∧ c ≠ '<' := by
    intro c hc
    have lm : ∀ x ∈ S "[^", x ≠ '\n' ∧ x ≠ '<' := by decide
    have lb : ∀ x ∈ S "]", x ≠ '\n' ∧ x ≠ '<' := by decide
    rcases List.mem_append.mp hc with h1 | h1
    · exact ⟨(hpre c h1).1, (hpre c h1).2.1⟩
    rcases List.mem_append.mp h1 with h2 | h2
    · rcases List.mem_append.mp h2 with h3 | h3
      · exact lm c h3
      rcases List.mem_append.mp h3 with h4 | h4
      · have hcd : c = d := List.mem_singleton.mp h4
        subst hcd
        exact ⟨digit_ne_of hd '\n' (by decide), digit_ne_of hd '<' (by decide)⟩
      · exact lb c h4
    · exact ⟨(hmid c h2).1, (hmid c h2).2.1⟩
  have hrest2nl : ∀ c ∈ S ": <a href=\"" ++ (u ++ (S "\">" ++ (t ++ S "</a>"))), c ≠ '\n' := by
    intro c hc
    have l1 : ∀ x ∈ S ": <a href=\"", x ≠ '\n' := by decide
    have l2 : ∀ x ∈ S "\">", x ≠ '\n' := by decide
    have l3 : ∀ x ∈ S "</a>", x ≠ '\n' := by decide
    rcases List.mem_append.mp hc with h1 | h1
    · exact l1 c h1
    rcases List.mem_append.mp h1 with h2 | h2
    · exact (hu c h2).1
    rcases List.mem_append.mp h2 with h3 | h3
    · exact l2 c h3
    rcases List.mem_append.mp h3 with h4 | h4
    · exact (ht c h4).1
    · exact l3 c h4
  have hsplit : pre ++ (marker d ++ (mid ++ ('\n' :: fnDef d u t)))
      = (pre ++ (marker d ++ mid)) ++ ('\n' :: fnDef d u t) := by
    simp [List.append_assoc]
  have hra : refAt ('\n' :: fnDef d u t)
      = some (⟨true, S "[^" ++ [d] ++ S "]" ++
            (S ": <a href=\"" ++ (u ++ (S "\">" ++ (t ++ S "</a>")))), d⟩,
          1 + (S "[^" ++ [d] ++ S "]" ++
            (S ": <a href=\"" ++ (u ++ (S "\">" ++ (t ++ S "</a>"))))).length) := by
    have h1 : refAt ('\n' :: fnDef d u t) = refBody (fnDef d u t) := by simp [refAt]
    rw [h1]
    exact refBody_match d hd _ hrest2nl
  have hfull : S "[^" ++ [d] ++ S "]" ++
      (S ": <a href=\"" ++ (u ++ (S "\">" ++ (t ++ S "</a>")))) = fnDef d u t := by
    simp [fnDef, marker, List.append_assoc]
  unfold findRefs
  rw [hsplit, List.length_append]
  rw [show (pre ++ (marker d ++ mid)).length + ('\n' :: fnDef d u t).length + 1
        = (('\n' :: fnDef d u t).length + 1) + (pre ++ (marker d ++ mid)).length from by omega]
  rw [findRefsF_skip (pre ++ (marker d ++ mid)) (('\n' :: fnDef d u t).length + 1)
    ('\n' :: fnDef d u t) hxs]
  show findRefsF ((fnDef d u t).length + 1 + 1) ('\n' :: fnDef d u t) = _
  rw [findRefsF_step_some _ _ _ _ hra]
  rw [hfull]
  rw [Nat.add_comm 1 (fnDef d u t).length]
  rw [List.drop_succ_cons, List.drop_length, findRefsF_nil]

/-- `cleanRef` does not change a well-formed definition line: neither `</p>`
nor `<p>` occurs in it. -/
theorem cleanRef_fnDef (d : Char) (u t : List Char) (hd : d.isDigit = true)
    (hu : ∀ c ∈ u, c ≠ '<') (ht : ∀ c ∈ t, c ≠ '<') :
    cleanRef (fnDef d u t) = fnDef d u t := by
  have hwalk : ∀ ps : List Char,
      chunkSafe ('<' :: ps) (S ": <a href=\"") = true →
      searchLit ('<' :: ps) (S "</a>") = none →
      searchLit ('<' :: ps) (fnDef d u t) = none := by
    intro ps hcs hfin
    show searchLit ('<' :: ps)
      (marker d ++ (S ": <a href=\"" ++ (u ++ (S "\">" ++ (t ++ S "</a>"))))) = none
    refine searchLit_none_skip ps (marker d) _ ?_ ?_
    · intro x hx
      have lm : ∀ y ∈ S "[^", y ≠ '<' := by decide
      have lb : ∀ y ∈ S "]", y ≠ '<' := by decide
      rcases List.mem_append.mp hx with h1 | h1
      · exact lm x h1
      rcases List.mem_append.mp h1 with h2 | h2
      · have hx2 : x = d := List.mem_singleton.mp h2
        subst hx2
        exact digit_ne_of hd '<' (by decide)
      · exact lb x h2
    · refine searchLit_none_chunk _ _ _ hcs ?_
      refine searchLit_none_skip ps u _ hu ?_
      refine searchLit_none_skip ps (S "\">") _ (by decide) ?_
      refine searchLit_none_skip ps t _ ht ?_
      exact hfin
  have h1 : searchLit (S "</p>") (fnDef d u t) = none := hwalk _ (by decide) (by decide)
  have h2 : searchLit (S "<p>") (fnDef d u t) = none := hwalk _ (by decide) (by decide)
  have hrep : ∀ pat : List Char, pat ≠ [] → searchLit pat (fnDef d u t) = none →
      pyReplace (fnDef d u t) pat [] = fnDef d u t := by
    intro pat hne hnone
    unfold pyReplace
    rw [if_neg hne]
    exact repAux_noop pat [] _ hnone
  unfold cleanRef
  rw [hrep _ (by decide) h1, hrep _ (by decide) h2]

/-- Href extraction from a well-formed definition line. -/
theorem hrefOf_fnDef (d : Char) (u t : List Char) (hd : d.isDigit = true)
    (hu : ∀ c ∈ u, c ≠ '\n' ∧ c ≠ '"') (ht : ∀ c ∈ t, c ≠ '\n') :
    hrefOf (fnDef d u t) = some u := by
  have hre : fnDef d u t
      = (marker d ++ S ": <a ") ++ (S "href=\"" ++ (u ++ (S "\">" ++ (t ++ S "</a>")))) := by
    simp only [fnDef, List.append_assoc]
    rw [lit_merge (show S ": <a " ++ S "href=\"" = S ": <a href=\"" from by decide)]
  have hsearch : searchLit (S "href=\"") (fnDef d u t)
      = some (marker d ++ S ": <a ", u ++ (S "\">" ++ (t ++ S "</a>"))) := by
    rw [hre]
    have hskip : searchLit (S "href=\"")
        ((marker d ++ S ": <a ") ++ (S "href=\"" ++ (u ++ (S "\">" ++ (t ++ S "</a>")))))
        = (searchLit (S "href=\"") (S "href=\"" ++ (u ++ (S "\">" ++ (t ++ S "</a>"))))).map
            (fun pr => ((marker d ++ S ": <a ") ++ pr.1, pr.2)) := by
      refine searchLit_skip _ _ _ ?_
      intro x hx
      have lm : ∀ y ∈ S "[^", y ≠ 'h' := by decide
      have lb : ∀ y ∈ S "]", y ≠ 'h' := by decide
      have la : ∀ y ∈ S ": <a ", y ≠ 'h' := by decide
      rcases List.mem_append.mp hx with h1 | h1
      · rcases List.mem_append.mp h1 with h2 | h2
        · exact lm x h2
        rcases List.mem_append.mp h2 with h3 | h3
        · have hx2 : x = d := List.mem_singleton.mp h3
          subst hx2
          exact digit_ne_of hd 'h' (by decide)
        · exact lb x h3
      · exact la x h1
    have hself : searchLit (S "href=\"") (S "href=\"" ++ (u ++ (S "\">" ++ (t ++ S "</a>"))))
        = some ([], u ++ (S "\">" ++ (t ++ S "</a>"))) := searchLit_self 'h' (S "ref=\"") _
    rw [hskip, hself]
    simp
  have hline : lineOf (u ++ (S "\">" ++ (t ++ S "</a>"))) = u ++ (S "\">" ++ (t ++ S "</a>")) := by
    apply lineOf_all
    intro c hc
    have l2 : ∀ x ∈ S "\">", x ≠ '\n' := by decide
    have l3 : ∀ x ∈ S "</a>", x ≠ '\n' := by decide
    rcases List.mem_append.mp hc with h1 | h1
    · exact (hu c h1).1
    rcases List.mem_append.mp h1 with h2 | h2
    · exact l2 c h2
    rcases List.mem_append.mp h2 with h3 | h3
    · exact ht c h3
    · exact l3 c h3
  have hq : searchLit (S "\"") (u ++ (S "\">" ++ (t ++ S "</a>")))
      = some (u, S ">" ++ (t ++ S "</a>")) := by
    rw [show S "\">" ++ (t ++ S "</a>") = S "\"" ++ (S ">" ++ (t ++ S "</a>")) from
      (lit_merge (show S "\"" ++ S ">" = S "\">" from by decide) _).symm]
    have hskip2 : searchLit (S "\"") (u ++ (S "\"" ++ (S ">" ++ (t ++ S "</a>"))))
        = (searchLit (S "\"") (S "\"" ++ (S ">" ++ (t ++ S "</a>")))).map
            (fun pr => (u ++ pr.1, pr.2)) :=
      searchLit_skip [] u _ (fun x hx => (hu x hx).2)
    have hself2 : searchLit (S "\"") (S "\"" ++ (S ">" ++ (t ++ S "</a>")))
        = some ([], S ">" ++ (t ++ S "</a>")) := searchLit_self '"' [] _
    rw [hskip2, hself2]
    simp
  show hrefOfF ((fnDef d u t).length + 1) (fnDef d u t) = some u
  simp only [hrefOfF, hsearch, hline, hq]

/-- Removing the definition text from the schema document. -/
theorem remove_fnDef (d : Char) (pre mid u t : List Char)
    (hd : d.isDigit = true)
    (hpre : ∀ c ∈ pre, c ≠ '[')
    (hmid : ∀ c ∈ mid, c ≠ '[' ∧ c ≠ ':') :
    pyReplace (pre ++ (marker d ++ (mid ++ ('\n' :: fnDef d u t)))) (fnDef d u t) []
      = pre ++ (marker d ++ (mid ++ ['\n'])) := by
  have hne : fnDef d u t ≠ [] := append_ne_nil_lit (append_ne_nil_lit (by decide) _) _
  have hl0 : litHead (fnDef d u t)
      ('[' :: ('^' :: (d :: (']' :: (mid ++ ('\n' :: fnDef d u t)))))) = false := by
    show litHead
        ('[' :: ('^' :: (d :: (']' ::
          (S ": <a href=\"" ++ (u ++ (S "\">" ++ (t ++ S "</a>"))))))))
        ('[' :: ('^' :: (d :: (']' :: (mid ++ ('\n' :: fnDef d u t)))))) = false
    simp only [litHead, if_pos rfl]
    cases mid with
    | nil =>
      exact litHead_false_head _ '\n' ':' _ rfl (by decide)
    | cons m ms =>
      exact litHead_false_head _ m ':' _ rfl
        (Ne.symm (hmid m (List.mem_cons_self m ms)).2)
  unfold pyReplace
  rw [if_neg hne]
  have h0 : repAux (fnDef d u t) [] 0 (pre ++ (marker d ++ (mid ++ ('\n' :: fnDef d u t))))
      = pre ++ repAux (fnDef d u t) [] 0 (marker d ++ (mid ++ ('\n' :: fnDef d u t))) :=
    repAux_skip _ _ pre _ hpre
  have h1 : repAux (fnDef d u t) [] 0 (marker d ++ (mid ++ ('\n' :: fnDef d u t)))
      = marker d ++ repAux (fnDef d u t) [] 0 (mid ++ ('\n' :: fnDef d u t)) := by
    show repAux (fnDef d u t) [] 0
        ('[' :: ('^' :: (d :: (']' :: (mid ++ ('\n' :: fnDef d u t))))))
      = '[' :: ('^' :: (d :: (']' ::
          repAux (fnDef d u t) [] 0 (mid ++ ('\n' :: fnDef d u t)))))
    rw [repAux_step _ _ _ _ hl0,
      repAux_step _ _ _ _ (litHead_false_head (fnDef d u t) '^' '[' _ rfl (by decide)),
      repAux_step _ _ _ _
        (litHead_false_head (fnDef d u t) d '[' _ rfl
          (Ne.symm (digit_ne_of hd '[' (by decide)))),
      repAux_step _ _ _ _ (litHead_false_head (fnDef d u t) ']' '[' _ rfl (by decide))]
  have h2 : repAux (fnDef d u t) [] 0 (mid ++ ('\n' :: fnDef d u t))
      = mid ++ repAux (fnDef d u t) [] 0 ('\n' :: fnDef d u t) :=
    repAux_skip _ _ mid _ (fun x hx => (hmid x hx).1)
  have h3 : repAux (fnDef d u t) [] 0 ('\n' :: fnDef d u t)
      = '\n' :: repAux (fnDef d u t) [] 0 (fnDef d u t) :=
    repAux_step _ _ _ _ (litHead_false_head _ '\n' '[' _ rfl (by decide))
  have h4 : repAux (fnDef d u t) [] 0 (fnDef d u t) = [] := by
    have h := pyReplace_self_of (fnDef d u t) [] hne
    unfold pyReplace at h
    rw [if_neg hne] at h
    exact h
  rw [h0, h1, h2, h3, h4]

/-- Substituting the superscript anchor for the body marker. -/
theorem marker_replace (d : Char) (pre mid sup : List Char)
    (hpre : ∀ c ∈ pre, c ≠ '[')
    (hmid : ∀ c ∈ mid, c ≠ '[') :
    pyReplace (pre ++ (marker d ++ (mid ++ ['\n']))) (S "[^" ++ [d] ++ S "]") sup
      = pre ++ (sup ++ (mid ++ ['\n'])) := by
  have hne : (S "[^" ++ [d] ++ S "]") ≠ [] :=
    append_ne_nil_lit (append_ne_nil_lit (by decide) _) _
  unfold pyReplace
  rw [if_neg hne]
  have h0 : repAux (S "[^" ++ [d] ++ S "]") sup 0 (pre ++ (marker d ++ (mid ++ ['\n'])))
      = pre ++ repAux (S "[^" ++ [d] ++ S "]") sup 0 (marker d ++ (mid ++ ['\n'])) :=
    repAux_skip _ _ pre _ hpre
  have h1 : repAux (S "[^" ++ [d] ++ S "]") sup 0 (marker d ++ (mid ++ ['\n']))
      = sup ++ repAux (S "[^" ++ [d] ++ S "]") sup 0 (mid ++ ['\n']) :=
    repAux_match '[' ('^' :: (d :: (']' :: []))) sup (mid ++ ['\n'])
  have h2 : repAux (S "[^" ++ [d] ++ S "]") sup 0 (mid ++ ['\n'])
      = mid ++ repAux (S "[^" ++ [d] ++ S "]") sup 0 ['\n'] :=
    repAux_skip _ _ mid _ hmid
  have h3 : repAux (S "[^" ++ [d] ++ S "]") sup 0 ['\n']
      = '\n' :: repAux (S "[^" ++ [d] ++ S "]") sup 0 [] :=
    repAux_step _ _ _ _ (litHead_false_head _ '\n' '[' _ rfl (by decide))
  rw [h0, h1, h2, h3, repAux_nil]

/-- One loop iteration with a successful href extraction. -/
theorem refsLoop_cons_some (r : Ref) (rs : List Ref) (html u : List Char)
    (h : hrefOf (fullRefOf r) = some u) :
    refsLoop (r :: rs) html = refsLoop rs
      (pyReplace (pyReplace html (fullRefOf r) [])
        (S "[^" ++ [r.d] ++ S "]")
        (S "<a id=\"test\" href=\"" ++ u ++ S "\"><sup>" ++ [r.d] ++ S "</sup></a>")) := by
  show (match hrefOf (fullRefOf r) with
    | none => none
    | some u2 =>
      refsLoop rs (pyReplace (pyReplace html (fullRefOf r) [])
        (S "[^" ++ [r.d] ++ S "]")
        (S "<a id=\"test\" href=\"" ++ u2 ++ S "\"><sup>" ++ [r.d] ++ S "</sup></a>"))) = _
  rw [h]

/-- `process_refs` on the schema document: the definition line disappears and
the body marker becomes the superscript anchor. -/
theorem process_refs_schema (d : Char) (pre mid u t : List Char)
    (hd : d.isDigit = true)
    (hpre : ∀ c ∈ pre, c ≠ '\n' ∧ c ≠ '<' ∧ c ≠ '[')
    (hmid : ∀ c ∈ mid, c ≠ '\n' ∧ c ≠ '<' ∧ c ≠ '[' ∧ c ≠ ':')
    (hu : ∀ c ∈ u, c ≠ '\n' ∧ c ≠ '<' ∧ c ≠ '[' ∧ c ≠ '"')
    (ht : ∀ c ∈ t, c ≠ '\n' ∧ c ≠ '<' ∧ c ≠ '[') :
    process_refs (pre ++ (marker d ++ (mid ++ ('\n' :: fnDef d u t))))
      = some (pre ++ (fnSup d u ++ (mid ++ ['\n']))) := by
  have hfro : fullRefOf ⟨true, fnDef d u t, d⟩ = fnDef d u t := by
    have hc := cleanRef_fnDef d u t hd (fun c hc => (hu c hc).2.1) (fun c hc => (ht c hc).2.1)
    simp [fullRefOf, hc]
  have hscrut : hrefOf (fullRefOf ⟨true, fnDef d u t, d⟩) = some u := by
    rw [hfro]
    exact hrefOf_fnDef d u t hd (fun c hc => ⟨(hu c hc).1, (hu c hc).2.2.2⟩)
      (fun c hc => (ht c hc).1)
  unfold process_refs
  rw [findRefs_schema d pre mid u t hd hpre hmid hu ht]
  rw [refsLoop_cons_some _ _ _ u hscrut]
  show refsLoop []
      (pyReplace (pyReplace (pre ++ (marker d ++ (mid ++ ('\n' :: fnDef d u t))))
          (fullRefOf ⟨true, fnDef d u t, d⟩) [])
        (S "[^" ++ [d] ++ S "]")
        (S "<a id=\"test\" href=\"" ++ u ++ S "\"><sup>" ++ [d] ++ S "</sup></a>")) = _
  rw [hfro]
  rw [remove_fnDef d pre mid u t hd (fun c hc => (hpre c hc).2.2)
    (fun c hc => ⟨(hmid c hc).2.2.1, (hmid c hc).2.2.2⟩)]
  rw [marker_replace d pre mid
    (S "<a id=\"test\" href=\"" ++ u ++ S "\"><sup>" ++ [d] ++ S "</sup></a>")
    (fun c hc => (hpre c hc).2.2) (fun c hc => (hmid c hc).2.2.1)]
  show some _ = some _
  congr 1
  simp [fnSup, List.append_assoc]

/-- C8: footnote conversion replaces each marker with a superscript anchor to
the definition's href and removes the definition line; it fails exactly when
a recognised definition has no href; pattern-free input passes through. -/
theorem C8_footnote_conversion :
    (∀ (d : Char) (pre mid u t : List Char),
      d.isDigit = true →
      (∀ c ∈ pre, c ≠ '\n' ∧ c ≠ '<' ∧ c ≠ '[') →
      (∀ c ∈ mid, c ≠ '\n' ∧ c ≠ '<' ∧ c ≠ '[' ∧ c ≠ ':') →
      (∀ c ∈ u, c ≠ '\n' ∧ c ≠ '<' ∧ c ≠ '[' ∧ c ≠ '"') →
      (∀ c ∈ t, c ≠ '\n' ∧ c ≠ '<' ∧ c ≠ '[') →
      process_refs (pre ++ (marker d ++ (mid ++ ('\n' :: fnDef d u t))))
        = some (pre ++ (fnSup d u ++ (mid ++ ['\n'])))) ∧
    (∀ html, process_refs html = none ↔
      ∃ r ∈ findRefs html, hrefOf (fullRefOf r) = none) ∧
    (∀ html, findRefs html = [] → process_refs html = some html) := by
  refine ⟨fun d pre mid u t hd h1 h2 h3 h4 =>
    process_refs_schema d pre mid u t hd h1 h2 h3 h4, ?_, ?_⟩
  · intro html
    unfold process_refs
    exact refsLoop_none_iff (findRefs html) html
  · intro html h
    unfold process_refs
    rw [h]
    rfl

/-- C8 instantiated: a concrete footnote is rewritten, pattern-free text
passes through, and a definition without href aborts. -/
theorem C8_witness :
    process_refs (S "body [^1] text\n[^1]: <a href=\"http://x\">ft</a>")
      = some (S "body <a id=\"test\" href=\"http://x\"><sup>1</sup></a> text\n") ∧
    process_refs (S "no footnotes here") = some (S "no footnotes here") ∧
    process_refs (S "x [^1]\n[^1]: no link here") = none := by
  refine ⟨?_, ?_, ?_⟩
  · have h := C8_footnote_conversion.1 '1' (S "body ") (S " text") (S "http://x") (S "ft")
      (by decide) (by decide) (by decide) (by decide) (by decide)
    rwa [show S "body " ++ (marker '1' ++ (S " text" ++ ('\n' :: fnDef '1' (S "http://x") (S "ft"))))
          = S "body [^1] text\n[^1]: <a href=\"http://x\">ft</a>" from by decide,
      show S "body " ++ (fnSup '1' (S "http://x") ++ (S " text" ++ ['\n']))
          = S "body <a id=\"test\" href=\"http://x\"><sup>1</sup></a> text\n" from by decide] at h
  · exact C8_footnote_conversion.2.2 _ (by decide)
  · exact (C8_footnote_conversion.2.1 _).mpr (by decide)

/-! ### C4: the builder reads the workspace, not the plan tree -/

/-- C4: the body uploaded for the leaf file of the C4 plan tree is the
transform of the *workspace* file of the same basename (`"workspace text"`),
not the transform of the content the planner copied into the plan tree
(`"plan text"`), because line 542 joins the bare basename onto `WORK_FOLDER`:
the run succeeds and the three remote pages carry bodies
`["", "", "workspace text"]`, while `get_body` applied to the plan-side
content would have produced `"plan text"`, a different body. -/
theorem C4_builder_reads_workspace_not_plan :
    (execute_import wsC4 (fun s => s) (S "1") remoteC4 planC4).map
        (fun st => st.remote.pages.map Page.body)
      = Except.ok [[], [], S "workspace text"]
    ∧ get_body (fun s => s) (S "plan text") = some (S "plan text")
    ∧ (S "workspace text" : List Char) ≠ S "plan text" :=
  ⟨rfl, rfl, by decide⟩

/-! ### C9: ancestor lookups always succeed on the traversal -/

/-- Splitting never yields the empty list of fragments. -/
theorem pySplit_ne_nil (sep : Char) : ∀ s : List Char, pySplit sep s ≠ []
  | [] => by simp [pySplit]
  | c :: cs => by
    simp only [pySplit]
    split <;> simp

/-- Splitting after a separator-free literal prefix extends the first
fragment of the split of the rest. -/
theorem pySplit_lit : ∀ (e rest : List Char), slashFree e = true →
    pySplit '/' (e ++ rest) =
      (e ++ (pySplit '/' rest).headD []) :: (pySplit '/' rest).tail
  | [], rest, _ => by
    cases hr : pySplit '/' rest with
    | nil => exact absurd hr (pySplit_ne_nil '/' rest)
    | cons a as => simp [hr]
  | c :: e', rest, h => by
    simp only [slashFree, List.all_cons, Bool.and_eq_true,
      decide_eq_true_eq] at h
    rw [List.cons_append]
    simp only [pySplit, if_neg h.1]
    rw [pySplit_lit e' rest h.2]
    simp

/-- Splitting a path built from separator-free components recovers the
components, preceded by the empty fragment before the leading slash. -/
theorem pySplit_mkPath : ∀ es : List (List Char),
    (∀ e ∈ es, slashFree e = true) → pySplit '/' (mkPath es) = [] :: es
  | [], _ => rfl
  | e :: es', h => by
    have he : slashFree e = true := h e (List.mem_cons_self e es')
    have hes : ∀ x ∈ es', slashFree x = true :=
      fun x hx => h x (List.mem_cons_of_mem e hx)
    have hstep : ∀ s, pySplit '/' ('/' :: s) = [] :: pySplit '/' s :=
      fun s => by simp [pySplit]
    show pySplit '/' ('/' :: (e ++ mkPath es')) = [] :: e :: es'
    rw [hstep, pySplit_lit e (mkPath es') he, pySplit_mkPath es' hes]
    simp

/-- Appending one component to a path appends one slash-separated segment. -/
theorem mkPath_concat : ∀ (es : List (List Char)) (n : List Char),
    mkPath (es ++ [n]) = mkPath es ++ '/' :: n
  | [], n => by simp [mkPath]
  | e :: es', n => by
    have ih := mkPath_concat es' n
    simp only [List.cons_append, mkPath, ih]
    simp [List.append_assoc]
    exact ih

/-- Line 536's key `"/" + "/".join(elems[:-1])` is the path of the parent
components. -/
theorem joinSlash_mkPath : ∀ es : List (List Char), es ≠ [] →
    '/' :: joinSlash es = mkPath es
  | [], h => absurd rfl h
  | [e], _ => by simp [joinSlash, mkPath]
  | e :: f :: es', _ => by
    have ih := joinSlash_mkPath (f :: es') (by simp)
    show '/' :: (e ++ '/' :: joinSlash (f :: es')) = '/' :: (e ++ mkPath (f :: es'))
    rw [← ih]

/-- A fresh dictionary entry is found under its key. -/
theorem lookupPages_cons_self (k v : List Char)
    (ps : List (List Char × List Char)) :
    lookupPages ((k, v) :: ps) k = some v := by
  unfold lookupPages
  rw [List.find?_cons_of_pos _ (by simp)]
  rfl

/-- A dictionary entry stays found after another entry is added. -/
theorem lookupPages_cons_mono (kx q : List Char)
    (ps : List (List Char × List Char)) (k : List Char)
    (h : lookupPages ps k ≠ none) :
    lookupPages ((kx, q) :: ps) k ≠ none := by
  by_cases hk : kx = k
  · subst hk
    rw [lookupPages_cons_self]
    simp
  · unfold lookupPages at h ⊢
    rw [List.find?_cons_of_neg _ (by simp [hk])]
    exact h

/-- The file loop never raises a KeyError: its failures are missing workspace
files, extraction failures and API failures. -/
theorem filesLoop_no_keyErr (ws : Workspace) (render : List Char → List Char)
    (pid : List Char) : ∀ (fs : List (List Char × List Char)) (st : ExecSt),
    filesLoop ws render pid fs st ≠ Except.error ExecErr.keyErr
  | [], st => by simp [filesLoop]
  | (f, c) :: rest, st => by
    simp only [filesLoop]
    split
    · simp
    next content heq =>
      split
      · simp
      next body heq2 =>
        split
        · simp
        next pr heq3 =>
          exact filesLoop_no_keyErr ws render pid rest ⟨pr.2, st.pages⟩

/-- The file loop never touches `confluence_pages`. -/
theorem filesLoop_pages (ws : Workspace) (render : List Char → List Char)
    (pid : List Char) : ∀ (fs : List (List Char × List Char)) (st st' : ExecSt),
    filesLoop ws render pid fs st = Except.ok st' → st'.pages = st.pages
  | [], st, st', h => by
    simp only [filesLoop, Except.ok.injEq] at h
    rw [← h]
  | (f, c) :: rest, st, st', h => by
    simp only [filesLoop] at h
    split at h
    · exact absurd h (by simp)
    next content heq =>
      split at h
      · exact absurd h (by simp)
      next body heq2 =>
        split at h
        · exact absurd h (by simp)
        next pr heq3 =>
          exact filesLoop_pages ws render pid rest ⟨pr.2, st.pages⟩ st' h

/-- Past the ancestor lookup, a walk iteration cannot raise KeyError. -/
theorem execNode2_no_keyErr (ws : Workspace) (render : List Char → List Char)
    (base page_path : List Char) (files : List (List Char × List Char))
    (st : ExecSt) (a : List Char) :
    execNode2 ws render base page_path files st a ≠
      Except.error ExecErr.keyErr := by
  unfold execNode2
  split
  next e heq =>
    intro hcon
    injection hcon with he
    subst he
    split at heq
    · exact absurd heq (by simp)
    · split at heq
      · simp at heq
      · exact absurd heq (by simp)
  next page_id st2 heq =>
    split
    next e heq2 =>
      intro hcon
      injection hcon with he
      subst he
      exact filesLoop_no_keyErr ws render page_id files st2 heq2
    next st3 heq2 => simp

/-- Effect of a successful walk iteration on `confluence_pages`: the plan
root leaves the map alone, every other directory records itself. -/
theorem execNode2_pages (ws : Workspace) (render : List Char → List Char)
    (base page_path : List Char) (files : List (List Char × List Char))
    (st : ExecSt) (a pid : List Char) (st' : ExecSt)
    (h : execNode2 ws render base page_path files st a = Except.ok (pid, st')) :
    (page_path = [] ∧ st'.pages = st.pages) ∨
      ∃ q, st'.pages = (page_path, q) :: st.pages := by
  unfold execNode2 at h
  split at h
  · exact absurd h (by simp)
  next page_id st2 heq =>
    split at h
    · exact absurd h (by simp)
    next st3 heq2 =>
      simp only [Except.ok.injEq, Prod.mk.injEq] at h
      have hpg := filesLoop_pages ws render page_id files st2 st3 heq2
      split at heq
      next hp =>
        left
        refine ⟨hp, ?_⟩
        simp only [Except.ok.injEq, Prod.mk.injEq] at heq
        rw [← h.2, hpg, ← heq.2]
      next hp =>
        split at heq
        · exact absurd heq (by simp)
        next pr heq3 =>
          right
          simp only [Except.ok.injEq, Prod.mk.injEq] at heq
          refine ⟨pr.1, ?_⟩
          rw [← h.2, hpg, ← heq.2]

/-- On a well-formed path whose parent is recorded, a walk iteration cannot
raise KeyError. -/
theorem execNode_no_keyErr (ws : Workspace) (render : List Char → List Char)
    (base : List Char) (es : List (List Char))
    (files : List (List Char × List Char)) (st : ExecSt)
    (hsl : ∀ e ∈ es, slashFree e = true)
    (hanc : 1 < es.length → lookupPages st.pages (mkPath es.dropLast) ≠ none) :
    execNode ws render base (mkPath es) files st ≠
      Except.error ExecErr.keyErr := by
  have helems : (pySplit '/' (mkPath es)).drop 1 = es := by
    rw [pySplit_mkPath es hsl]
    simp
  unfold execNode
  rw [helems]
  by_cases hl : 1 < es.length
  · rw [if_pos hl]
    have hd : es.dropLast ≠ [] := by
      have hlen : 0 < es.dropLast.length := by
        rw [List.length_dropLast]
        omega
      exact List.length_pos.mp hlen
    rw [joinSlash_mkPath es.dropLast hd]
    cases hk : lookupPages st.pages (mkPath es.dropLast) with
    | none => exact absurd hk (hanc hl)
    | some a =>
      exact execNode2_no_keyErr ws render base (mkPath es) files st a
  · rw [if_neg hl]
    exact execNode2_no_keyErr ws render base (mkPath es) files st base

/-- Effect of a successful walk iteration, at the `execNode` level. -/
theorem execNode_pages (ws : Workspace) (render : List Char → List Char)
    (base page_path : List Char) (files : List (List Char × List Char))
    (st : ExecSt) (pid : List Char) (st' : ExecSt)
    (h : execNode ws render base page_path files st = Except.ok (pid, st')) :
    (page_path = [] ∧ st'.pages = st.pages) ∨
      ∃ q, st'.pages = (page_path, q) :: st.pages := by
  unfold execNode at h
  split at h
  · exact absurd h (by simp)
  next a heq => exact execNode2_pages ws render base page_path files st a pid st' h

/-! The walk invariant: on a tree with separator-free names, starting from a
state that records the parent of the current path, the traversal never
raises KeyError, and it only ever adds entries to `confluence_pages`. -/

mutual
theorem walkTree_keySafe (ws : Workspace) (render : List Char → List Char)
    (base : List Char) :
    ∀ (t : PTree) (es : List (List Char)) (st : ExecSt),
      goodTree t = true → (∀ e ∈ es, slashFree e = true) →
      (1 < es.length → lookupPages st.pages (mkPath es.dropLast) ≠ none) →
      walkTree ws render base (mkPath es) t st ≠
          Except.error ExecErr.keyErr ∧
        ∀ st', walkTree ws render base (mkPath es) t st = Except.ok st' →
          ∀ k, lookupPages st.pages k ≠ none → lookupPages st'.pages k ≠ none
  | PTree.node dirs files, es, st => by
    intro hg hsl hanc
    have hgd : goodForest dirs = true := by
      simpa [goodTree] using hg
    have hek := execNode_no_keyErr ws render base es files st hsl hanc
    simp only [walkTree]
    cases hE : execNode ws render base (mkPath es) files st with
    | error e =>
      have he : e ≠ ExecErr.keyErr := by
        intro hcon
        exact hek (by rw [hE, hcon])
      constructor
      · intro hcon
        exact he (Except.error.inj hcon)
      · intro st' hok k hk
        exact Except.noConfusion hok
    | ok pst =>
      obtain ⟨pid, st2⟩ := pst
      have hpg := execNode_pages ws render base (mkPath es) files st pid st2 hE
      have hpar2 : es ≠ [] → lookupPages st2.pages (mkPath es) ≠ none := by
        intro hne
        rcases hpg with ⟨hp, _⟩ | ⟨q, hq⟩
        · cases es with
          | nil => exact absurd rfl hne
          | cons e es' => exact absurd hp (by simp [mkPath])
        · rw [hq, lookupPages_cons_self]
          simp
      have hIH := walkForest_keySafe ws render base dirs es st2 hgd hsl hpar2
      constructor
      · exact hIH.1
      · intro st' hok k hk
        have hk2 : lookupPages st2.pages k ≠ none := by
          rcases hpg with ⟨_, hp2⟩ | ⟨q, hq⟩
          · rw [hp2]
            exact hk
          · rw [hq]
            exact lookupPages_cons_mono (mkPath es) q st.pages k hk
        exact hIH.2 st' hok k hk2

theorem walkForest_keySafe (ws : Workspace) (render : List Char → List Char)
    (base : List Char) :
    ∀ (fo : PForest) (es : List (List Char)) (st : ExecSt),
      goodForest fo = true → (∀ e ∈ es, slashFree e = true) →
      (es ≠ [] → lookupPages st.pages (mkPath es) ≠ none) →
      walkForest ws render base (mkPath es) fo st ≠
          Except.error ExecErr.keyErr ∧
        ∀ st', walkForest ws render base (mkPath es) fo st = Except.ok st' →
          ∀ k, lookupPages st.pages k ≠ none → lookupPages st'.pages k ≠ none
  | PForest.nil, es, st => by
    intro _ _ _
    constructor
    · simp [walkForest]
    · intro st' hok k hk
      simp only [walkForest, Except.ok.injEq] at hok
      rw [← hok]
      exact hk
  | PForest.cons name t rest, es, st => by
    intro hg hsl hpar
    have hg' := hg
    simp only [goodForest, Bool.and_eq_true] at hg'
    obtain ⟨⟨hn, ht⟩, hr⟩ := hg'
    have hpath : mkPath es ++ '/' :: name = mkPath (es ++ [name]) :=
      (mkPath_concat es name).symm
    have hsl' : ∀ e ∈ es ++ [name], slashFree e = true := by
      intro e he
      rcases List.mem_append.mp he with h1 | h2
      · exact hsl e h1
      · rw [List.mem_singleton.mp h2]
        exact hn
    have hanc' : 1 < (es ++ [name]).length →
        lookupPages st.pages (mkPath (es ++ [name]).dropLast) ≠ none := by
      intro hlen
      rw [List.dropLast_concat]
      apply hpar
      intro hnil
      rw [hnil] at hlen
      simp at hlen
    have hT := walkTree_keySafe ws render base t (es ++ [name]) st ht hsl' hanc'
    simp only [walkForest]
    rw [hpath]
    cases hW : walkTree ws render base (mkPath (es ++ [name])) t st with
    | error e =>
      have he : e ≠ ExecErr.keyErr := by
        intro hcon
        exact hT.1 (by rw [hW, hcon])
      constructor
      · intro hcon
        exact he (Except.error.inj hcon)
      · intro st' hok k hk
        exact Except.noConfusion hok
    | ok st2 =>
      have hmono := hT.2 st2 hW
      have hpar2 : es ≠ [] → lookupPages st2.pages (mkPath es) ≠ none :=
        fun hne => hmono (mkPath es) (hpar hne)
      have hR := walkForest_keySafe ws render base rest es st2 hr hsl hpar2
      constructor
      · exact hR.1
      · intro st' hok k hk
        exact hR.2 st' hok k (hmono k hk)
end

/-- C9: on any plan tree `os.walk` can yield (directory names free of path
separators), `execute_import` never fails the `confluence_pages` ancestor-id
lookup of line 536: the top-down depth-first traversal records a parent
directory's page id before any of its descendants are processed, and
top-level entries bypass the lookup, using the space base id. -/
theorem C9_ancestor_lookups_resolved (ws : Workspace)
    (render : List Char → List Char) (base : List Char) (remote0 : RemoteSt)
    (plan : PTree) (hgood : goodTree plan = true) :
    execute_import ws render base remote0 plan ≠
      Except.error ExecErr.keyErr := by
  have h := walkTree_keySafe ws render base plan [] ⟨remote0, []⟩ hgood
    (by intro e he; exact absurd he (List.not_mem_nil e))
    (by intro hlen; simp at hlen)
  exact h.1

/-- C9 witness: the two-level plan `B/C` executes against a one-page space
without a KeyError. -/
theorem C9_witness :
    execute_import [] (fun s => s) (S "1") ⟨[⟨S "1", S "Top", [], []⟩], 2⟩
        planC9 ≠ Except.error ExecErr.keyErr :=
  C9_ancestor_lookups_resolved [] (fun s => s) (S "1")
    ⟨[⟨S "1", S "Top", [], []⟩], 2⟩ planC9 (by decide)

end NuclinoImport
